import Mathlib

/-!
Shallow embedding of the bounty-crawl change-detection core:
* `src/src/scrapers/change-detector.ts` (full-mode diffing over bounty indexes),
* `src/scripts/detect-changes.ts` (cheap-mode fingerprinting over fetched HTML),
* `src/cloudflare-worker/webhook-forwarder.js` (event coalescing / push endpoint),
* `src/src/scrapers/unified-firecrawl-scraper.ts` (fetch retry/circuit breaking
  and bounty extraction with currency parsing).

JavaScript `Map`/`Set`/`Record` values are modelled as association lists and
lists with explicit dedup-on-insert; SHA-256 (an external crypto primitive) is
modelled as an arbitrary function parameter, since every property proved here
only uses that it is a function.
-/

namespace BountyCrawl

/-! ### Full-mode data model (src/src/types.ts) -/

/-- `Bounty` from `src/src/types.ts` (the fields compared by the detector). -/
structure Bounty where
  id : String
  title : String
  amount_usd : Nat
  status : String
  url : String
  difficulty : String
  tags : List String
  deriving Repr, DecidableEq

/-- `OrganizationBounties` from `src/src/types.ts` (the field the detector reads). -/
structure OrganizationBounties where
  bounties : List Bounty
  deriving Repr, DecidableEq

/-- `BountyIndex` from `src/src/types.ts`: `organizations` is a JS `Record`,
modelled as an association list in insertion order. -/
structure BountyIndex where
  organizations : List (String × OrganizationBounties)
  deriving Repr, DecidableEq

/-- One entry of `updated_bounties` in `ChangeDetection`. -/
structure UpdatedBounty where
  old : Bounty
  new : Bounty
  changes : List String
  deriving Repr, DecidableEq

/-- `ChangeDetection` from `src/src/types.ts`. -/
structure ChangeDetection where
  has_changes : Bool
  added_bounties : List Bounty
  removed_bounties : List Bounty
  updated_bounties : List UpdatedBounty
  organizations_added : List String
  organizations_removed : List String
  summary : String
  deriving Repr, DecidableEq

/-! ### ChangeDetector (src/src/scrapers/change-detector.ts) -/

/-- `ChangeDetector.extractAllBounties`: flatten all organizations' bounty
lists in `Object.values` (insertion) order. -/
def extractAllBounties (index : BountyIndex) : List Bounty :=
  index.organizations.flatMap (fun orgData => orgData.2.bounties)

/-- `new Map(bounties.map(b => [b.id, b])).has(i)`: some bounty has id `i`. -/
def mapHas (bs : List Bounty) (i : String) : Bool :=
  bs.any (fun b => b.id == i)

/-- `new Map(bounties.map(b => [b.id, b])).get(i)`: the last bounty inserted
under key `i` (later entries overwrite earlier ones in a JS `Map`). -/
def mapGet (bs : List Bounty) (i : String) : Option Bounty :=
  bs.foldl (fun acc b => if b.id == i then some b else acc) none

/-- `Array.from(new Set(tags))`: deduplicate keeping first occurrences. -/
def setDedup (tags : List String) : List String :=
  tags.foldl (fun acc t => if acc.contains t then acc else acc ++ [t]) []

/-- `ChangeDetector.detectBountyChanges`: list of human-readable field-change
descriptions between two bounties with the same id. -/
def detectBountyChanges (previous current : Bounty) : List String :=
  let titleChanges :=
    if previous.title ≠ current.title then
      ["title: \"" ++ previous.title ++ "\" → \"" ++ current.title ++ "\""]
    else []
  let amountChanges :=
    if previous.amount_usd ≠ current.amount_usd then
      ["amount: $" ++ toString previous.amount_usd ++ " → $" ++ toString current.amount_usd]
    else []
  let statusChanges :=
    if previous.status ≠ current.status then
      ["status: " ++ previous.status ++ " → " ++ current.status]
    else []
  let urlChanges :=
    if previous.url ≠ current.url then
      ["url: " ++ previous.url ++ " → " ++ current.url]
    else []
  let difficultyChanges :=
    if previous.difficulty ≠ current.difficulty then
      ["difficulty: " ++ previous.difficulty ++ " → " ++ current.difficulty]
    else []
  let addedTags := (setDedup current.tags).filter (fun tag => !previous.tags.contains tag)
  let removedTags := (setDedup previous.tags).filter (fun tag => !current.tags.contains tag)
  let tagAddChanges :=
    if addedTags.length > 0 then
      ["tags added: " ++ String.intercalate ", " addedTags]
    else []
  let tagRemoveChanges :=
    if removedTags.length > 0 then
      ["tags removed: " ++ String.intercalate ", " removedTags]
    else []
  titleChanges ++ amountChanges ++ statusChanges ++ urlChanges ++
    difficultyChanges ++ tagAddChanges ++ tagRemoveChanges

/-- `ChangeDetector.generateSummary`. -/
def generateSummary (added removed updated orgsAdded orgsRemoved : Nat) : String :=
  let parts : List String :=
    (if added > 0 then [toString added ++ " bounties added"] else []) ++
    (if removed > 0 then [toString removed ++ " bounties removed"] else []) ++
    (if updated > 0 then [toString updated ++ " bounties updated"] else []) ++
    (if orgsAdded > 0 then [toString orgsAdded ++ " organizations added"] else []) ++
    (if orgsRemoved > 0 then [toString orgsRemoved ++ " organizations removed"] else [])
  if parts.length = 0 then "No changes detected" else String.intercalate ", " parts

/-- `ChangeDetector.compareIndices`: the full-mode diff of two bounty indexes. -/
def compareIndices (previous current : BountyIndex) : ChangeDetection :=
  let previousBounties := extractAllBounties previous
  let currentBounties := extractAllBounties current
  let addedBounties := currentBounties.filter (fun b => !mapHas previousBounties b.id)
  let removedBounties := previousBounties.filter (fun b => !mapHas currentBounties b.id)
  let updatedBounties := currentBounties.filterMap (fun currentBounty =>
    match mapGet previousBounties currentBounty.id with
    | some previousBounty =>
        let changes := detectBountyChanges previousBounty currentBounty
        if changes.length > 0 then
          some { old := previousBounty, new := currentBounty, changes := changes }
        else none
    | none => none)
  let previousOrgs := previous.organizations.map Prod.fst
  let currentOrgs := current.organizations.map Prod.fst
  let organizationsAdded := currentOrgs.filter (fun org => !previousOrgs.contains org)
  let organizationsRemoved := previousOrgs.filter (fun org => !currentOrgs.contains org)
  let hasChanges := addedBounties.length > 0 || removedBounties.length > 0 ||
    updatedBounties.length > 0 || organizationsAdded.length > 0 ||
    organizationsRemoved.length > 0
  { has_changes := hasChanges
    added_bounties := addedBounties
    removed_bounties := removedBounties
    updated_bounties := updatedBounties
    organizations_added := organizationsAdded
    organizations_removed := organizationsRemoved
    summary := generateSummary addedBounties.length removedBounties.length
      updatedBounties.length organizationsAdded.length organizationsRemoved.length }

/-- `ChangeDetector.createInitialChangeDetection`: every bounty of the current
index is reported as added on a first run (no previous index). -/
def createInitialChangeDetection (currentIndex : BountyIndex) : ChangeDetection :=
  let allBounties := currentIndex.organizations.flatMap (fun org => org.2.bounties)
  { has_changes := true
    added_bounties := allBounties
    removed_bounties := []
    updated_bounties := []
    organizations_added := currentIndex.organizations.map Prod.fst
    organizations_removed := []
    summary := "Initial scan: " ++ toString allBounties.length ++ " bounties across " ++
      toString (currentIndex.organizations.map Prod.fst).length ++ " organizations" }

/-- `ChangeDetector.detectChanges` after the previous index was loaded (or
found missing): dispatch between first-run handling and `compareIndices`. -/
def fullDetectChanges (previousIndex : Option BountyIndex) (currentIndex : BountyIndex) :
    ChangeDetection :=
  match previousIndex with
  | none => createInitialChangeDetection currentIndex
  | some previous => compareIndices previous currentIndex

/-- An id occurs in an index when some extracted bounty carries it. -/
def idOccurs (index : BountyIndex) (i : String) : Prop :=
  ∃ b ∈ extractAllBounties index, b.id = i

instance (index : BountyIndex) (i : String) : Decidable (idOccurs index i) := by
  unfold idOccurs; infer_instance

/-! ### Lemmas about the Map/Set models -/

lemma mapHas_iff (bs : List Bounty) (i : String) :
    mapHas bs i = true ↔ ∃ b ∈ bs, b.id = i := by
  unfold mapHas
  simp [List.any_eq_true]

lemma mapGet_go_acc_of_no_match (bs : List Bounty) (i : String) (acc : Option Bounty)
    (h : ∀ b ∈ bs, b.id ≠ i) :
    bs.foldl (fun acc b => if b.id == i then some b else acc) acc = acc := by
  induction bs generalizing acc with
  | nil => rfl
  | cons hd tl ih =>
    have hhd : ¬(hd.id == i) = true := by simpa using h hd (by simp)
    simp only [List.foldl_cons, if_neg hhd]
    exact ih acc (fun b hb => h b (List.mem_cons_of_mem _ hb))

lemma mapGet_go_some (bs : List Bounty) (i : String) (acc : Option Bounty) (b : Bounty)
    (h : bs.foldl (fun acc b => if b.id == i then some b else acc) acc = some b) :
    (b ∈ bs ∧ b.id = i) ∨ acc = some b := by
  induction bs generalizing acc with
  | nil => right; exact h
  | cons hd tl ih =>
    simp only [List.foldl_cons] at h
    rcases ih _ h with ⟨hmem, hid⟩ | hacc
    · exact Or.inl ⟨List.mem_cons_of_mem _ hmem, hid⟩
    · by_cases hc : (hd.id == i) = true
      · rw [if_pos hc] at hacc
        refine Or.inl ⟨?_, ?_⟩
        · rw [← Option.some_inj.mp hacc]; simp
        · rw [← Option.some_inj.mp hacc]; exact beq_iff_eq.mp hc
      · rw [if_neg hc] at hacc
        exact Or.inr hacc

lemma mapGet_go_isSome_acc (bs : List Bounty) (i : String) (x : Bounty) :
    ∃ b, bs.foldl (fun acc b => if b.id == i then some b else acc) (some x) = some b := by
  induction bs generalizing x with
  | nil => exact ⟨x, rfl⟩
  | cons hd tl ih =>
    simp only [List.foldl_cons]
    by_cases hc : (hd.id == i) = true
    · rw [if_pos hc]; exact ih hd
    · rw [if_neg hc]; exact ih x

lemma mapGet_some (bs : List Bounty) (i : String) (b : Bounty)
    (h : mapGet bs i = some b) : b ∈ bs ∧ b.id = i := by
  rcases mapGet_go_some bs i none b h with hok | hbad
  · exact hok
  · cases hbad

lemma mapGet_isSome_of_occurs (bs : List Bounty) (i : String)
    (h : ∃ b ∈ bs, b.id = i) : ∃ b, mapGet bs i = some b := by
  unfold mapGet
  induction bs with
  | nil => simp at h
  | cons hd tl ih =>
    simp only [List.foldl_cons]
    by_cases hc : (hd.id == i) = true
    · rw [if_pos hc]; exact mapGet_go_isSome_acc tl i hd
    · rw [if_neg hc]
      apply ih
      rcases h with ⟨b, hb, hid⟩
      rcases List.mem_cons.mp hb with rfl | hb'
      · exact absurd (beq_iff_eq.mpr hid) hc
      · exact ⟨b, hb', hid⟩

lemma mapGet_nodup : ∀ (bs : List Bounty) (b : Bounty),
    (bs.map Bounty.id).Nodup → b ∈ bs → mapGet bs b.id = some b := by
  intro bs
  induction bs with
  | nil => intro b _ hb; cases hb
  | cons hd tl ih =>
    intro b hnd hb
    rw [List.map_cons, List.nodup_cons] at hnd
    have hnd' : hd.id ∉ tl.map Bounty.id ∧ (tl.map Bounty.id).Nodup := hnd
    rcases List.mem_cons.mp hb with rfl | hb'
    · unfold mapGet
      simp only [List.foldl_cons, beq_self_eq_true, if_true]
      refine mapGet_go_acc_of_no_match tl b.id (some b) ?_
      intro x hx he
      exact hnd'.1 (he ▸ List.mem_map.mpr ⟨x, hx, rfl⟩)
    · have hne : ¬(hd.id == b.id) = true := by
        simp only [beq_iff_eq]
        intro he
        exact hnd'.1 (he ▸ List.mem_map.mpr ⟨b, hb', rfl⟩)
      unfold mapGet
      simp only [List.foldl_cons, if_neg hne]
      exact ih b hnd'.2 hb'

lemma setDedup_go_subset (l : List String) (acc : List String) (x : String)
    (hx : x ∈ l.foldl (fun acc t => if acc.contains t then acc else acc ++ [t]) acc) :
    x ∈ acc ∨ x ∈ l := by
  induction l generalizing acc with
  | nil => exact Or.inl hx
  | cons hd tl ih =>
    simp only [List.foldl_cons] at hx
    rcases ih _ hx with h | h
    · by_cases hc : acc.contains hd = true
      · rw [if_pos hc] at h; exact Or.inl h
      · rw [if_neg hc] at h
        rcases List.mem_append.mp h with h' | h'
        · exact Or.inl h'
        · right; simp only [List.mem_singleton] at h'; simp [h']
    · exact Or.inr (List.mem_cons_of_mem _ h)

lemma setDedup_subset (l : List String) (x : String) (hx : x ∈ setDedup l) : x ∈ l := by
  rcases setDedup_go_subset l [] x hx with h | h
  · cases h
  · exact h

lemma detectBountyChanges_self (b : Bounty) : detectBountyChanges b b = [] := by
  unfold detectBountyChanges
  simp
  intro a ha
  exact setDedup_subset b.tags a ha

/-! ### Characterizations of `compareIndices` -/

lemma compareIndices_added (p c : BountyIndex) :
    (compareIndices p c).added_bounties =
      (extractAllBounties c).filter (fun b => !mapHas (extractAllBounties p) b.id) := rfl

lemma compareIndices_removed (p c : BountyIndex) :
    (compareIndices p c).removed_bounties =
      (extractAllBounties p).filter (fun b => !mapHas (extractAllBounties c) b.id) := rfl

lemma added_id_iff (p c : BountyIndex) (i : String) :
    (∃ b ∈ (compareIndices p c).added_bounties, b.id = i) ↔
      (idOccurs c i ∧ ¬ idOccurs p i) := by
  rw [compareIndices_added]
  constructor
  · rintro ⟨b, hb, rfl⟩
    rw [List.mem_filter] at hb
    refine ⟨⟨b, hb.1, rfl⟩, ?_⟩
    intro hocc
    have := (mapHas_iff (extractAllBounties p) b.id).mpr hocc
    simp [this] at hb
  · rintro ⟨⟨b, hb, rfl⟩, hnot⟩
    refine ⟨b, List.mem_filter.mpr ⟨hb, ?_⟩, rfl⟩
    have : ¬ mapHas (extractAllBounties p) b.id = true := by
      intro h; exact hnot ((mapHas_iff _ _).mp h)
    simp [this]

lemma removed_id_iff (p c : BountyIndex) (i : String) :
    (∃ b ∈ (compareIndices p c).removed_bounties, b.id = i) ↔
      (idOccurs p i ∧ ¬ idOccurs c i) := by
  rw [compareIndices_removed]
  constructor
  · rintro ⟨b, hb, rfl⟩
    rw [List.mem_filter] at hb
    refine ⟨⟨b, hb.1, rfl⟩, ?_⟩
    intro hocc
    have := (mapHas_iff (extractAllBounties c) b.id).mpr hocc
    simp [this] at hb
  · rintro ⟨⟨b, hb, rfl⟩, hnot⟩
    refine ⟨b, List.mem_filter.mpr ⟨hb, ?_⟩, rfl⟩
    have : ¬ mapHas (extractAllBounties c) b.id = true := by
      intro h; exact hnot ((mapHas_iff _ _).mp h)
    simp [this]

lemma updated_mem (p c : BountyIndex) (u : UpdatedBounty)
    (hu : u ∈ (compareIndices p c).updated_bounties) :
    u.new ∈ extractAllBounties c ∧ u.old ∈ extractAllBounties p ∧ u.old.id = u.new.id := by
  have hu' : u ∈ (extractAllBounties c).filterMap (fun currentBounty =>
      match mapGet (extractAllBounties p) currentBounty.id with
      | some previousBounty =>
          let changes := detectBountyChanges previousBounty currentBounty
          if changes.length > 0 then
            some { old := previousBounty, new := currentBounty, changes := changes }
          else none
      | none => none) := hu
  rw [List.mem_filterMap] at hu'
  rcases hu' with ⟨a, ha, hfa⟩
  cases hg : mapGet (extractAllBounties p) a.id with
  | none => rw [hg] at hfa; cases hfa
  | some pb =>
    rw [hg] at hfa
    simp only at hfa
    by_cases hlen : (detectBountyChanges pb a).length > 0
    · rw [if_pos hlen] at hfa
      have hpb := mapGet_some (extractAllBounties p) a.id pb hg
      cases hfa
      exact ⟨ha, hpb.1, hpb.2⟩
    · rw [if_neg hlen] at hfa; cases hfa

/-- An id is reported as updated when some updated entry carries it (old and
new sides agree on the id, but we allow either side in the statement). -/
def updatedIdReported (cd : ChangeDetection) (i : String) : Prop :=
  ∃ u ∈ cd.updated_bounties, u.old.id = i ∨ u.new.id = i

lemma updated_id_occurs_both (p c : BountyIndex) (i : String)
    (h : updatedIdReported (compareIndices p c) i) :
    idOccurs p i ∧ idOccurs c i := by
  rcases h with ⟨u, hu, hside⟩
  have hchar := updated_mem p c u hu
  have hid : u.new.id = i := by
    rcases hside with h' | h'
    · rw [← h', hchar.2.2]
    · exact h'
  exact ⟨⟨u.old, hchar.2.1, by rw [hchar.2.2, hid]⟩, ⟨u.new, hchar.1, hid⟩⟩

lemma compareIndices_updated_eq (p c : BountyIndex) :
    (compareIndices p c).updated_bounties =
      (extractAllBounties c).filterMap (fun currentBounty =>
        match mapGet (extractAllBounties p) currentBounty.id with
        | some previousBounty =>
            let changes := detectBountyChanges previousBounty currentBounty
            if changes.length > 0 then
              some { old := previousBounty, new := currentBounty, changes := changes }
            else none
        | none => none) := rfl

lemma compareIndices_orgsAdded (p c : BountyIndex) :
    (compareIndices p c).organizations_added =
      (c.organizations.map Prod.fst).filter
        (fun org => !(p.organizations.map Prod.fst).contains org) := rfl

lemma compareIndices_has_changes (p c : BountyIndex) :
    (compareIndices p c).has_changes =
      ((compareIndices p c).added_bounties.length > 0 ||
       (compareIndices p c).removed_bounties.length > 0 ||
       (compareIndices p c).updated_bounties.length > 0 ||
       (compareIndices p c).organizations_added.length > 0 ||
       (compareIndices p c).organizations_removed.length > 0) := rfl

lemma compareIndices_summary (p c : BountyIndex) :
    (compareIndices p c).summary =
      generateSummary (compareIndices p c).added_bounties.length
        (compareIndices p c).removed_bounties.length
        (compareIndices p c).updated_bounties.length
        (compareIndices p c).organizations_added.length
        (compareIndices p c).organizations_removed.length := rfl

lemma changeDetection_eq_of_fields (cd target : ChangeDetection)
    (h1 : cd.has_changes = target.has_changes)
    (h2 : cd.added_bounties = target.added_bounties)
    (h3 : cd.removed_bounties = target.removed_bounties)
    (h4 : cd.updated_bounties = target.updated_bounties)
    (h5 : cd.organizations_added = target.organizations_added)
    (h6 : cd.organizations_removed = target.organizations_removed)
    (h7 : cd.summary = target.summary) : cd = target := by
  cases cd; cases target; simp_all

lemma compareIndices_self (I : BountyIndex)
    (h : ((extractAllBounties I).map Bounty.id).Nodup) :
    compareIndices I I =
      { has_changes := false, added_bounties := [], removed_bounties := [],
        updated_bounties := [], organizations_added := [],
        organizations_removed := [], summary := "No changes detected" } := by
  have hA : (compareIndices I I).added_bounties = [] := by
    rw [compareIndices_added, List.filter_eq_nil_iff]
    intro b hb
    have : mapHas (extractAllBounties I) b.id = true :=
      (mapHas_iff _ _).mpr ⟨b, hb, rfl⟩
    simp [this]
  have hR : (compareIndices I I).removed_bounties = [] := by
    rw [compareIndices_removed, List.filter_eq_nil_iff]
    intro b hb
    have : mapHas (extractAllBounties I) b.id = true :=
      (mapHas_iff _ _).mpr ⟨b, hb, rfl⟩
    simp [this]
  have hU : (compareIndices I I).updated_bounties = [] := by
    rw [compareIndices_updated_eq, List.filterMap_eq_nil_iff]
    intro a ha
    rw [mapGet_nodup (extractAllBounties I) a h ha]
    simp [detectBountyChanges_self]
  have hOA : (compareIndices I I).organizations_added = [] := by
    rw [compareIndices_orgsAdded, List.filter_eq_nil_iff]
    intro o ho
    simp [ho]
  have hOR : (compareIndices I I).organizations_removed = [] := by
    rw [show (compareIndices I I).organizations_removed =
      (I.organizations.map Prod.fst).filter
        (fun org => !(I.organizations.map Prod.fst).contains org) from rfl,
      List.filter_eq_nil_iff]
    intro o ho
    simp [ho]
  refine changeDetection_eq_of_fields _ _ ?_ hA hR hU hOA hOR ?_
  · rw [compareIndices_has_changes, hA, hR, hU, hOA, hOR]
    rfl
  · rw [compareIndices_summary, hA, hR, hU, hOA, hOR]
    rfl

/-! ### Cheap-mode detector (src/scripts/detect-changes.ts)

The script fingerprints each organization page by counting marker substrings
(`/bounty/gi`, `/\$\d+/g`, `/open/gi`) plus the content length and hashing the
result.  SHA-256 (WebCrypto) is an external primitive, modelled as a function
parameter `sha`; JS string length (UTF-16 units) is modelled as `String.length`.
-/

/-- Prefix test for a pattern under a character comparison (used for both
case-sensitive and case-insensitive regex literals). -/
def startsWithPat (eq : Char → Char → Bool) : List Char → List Char → Bool
  | [], _ => true
  | _ :: _, [] => false
  | p :: ps, c :: cs => eq p c && startsWithPat eq ps cs

/-- Non-overlapping match count of a literal pattern, the semantics of
`content.match(/pat/g)?.length || 0`: scan left to right and advance past each
match.  The first argument counts characters still to skip because they belong
to the match just found (so the recursion is structural on the text). -/
def countMatchesAux (eq : Char → Char → Bool) (pat : List Char) :
    Nat → List Char → Nat
  | _, [] => 0
  | skip + 1, _ :: cs => countMatchesAux eq pat skip cs
  | 0, c :: cs =>
    if startsWithPat eq pat (c :: cs) then
      1 + countMatchesAux eq pat (pat.length - 1) cs
    else countMatchesAux eq pat 0 cs

/-- `content.match(/pat/g)?.length || 0` for a literal pattern `pat`. -/
def countMatches (eq : Char → Char → Bool) (pat : List Char) (content : List Char) : Nat :=
  countMatchesAux eq pat 0 content

/-- Case-insensitive character equality (the `i` regex flag on ASCII patterns). -/
def charEqCI (a b : Char) : Bool := a.toLower == b.toLower

/-- `content.match(/pat/gi)?.length || 0`. -/
def countCI (pat : List Char) (content : List Char) : Nat :=
  countMatches charEqCI pat content

/-- `content.match(/\$\d+/g)?.length || 0`: non-overlapping occurrences of a
dollar sign followed by one or more digits (greedy — a match consumes the
whole digit run, skipped via the structural counter). -/
def countDollarAux : Nat → List Char → Nat
  | _, [] => 0
  | skip + 1, _ :: cs => countDollarAux skip cs
  | 0, c :: cs =>
    if c == '$' && (cs.head?.map Char.isDigit).getD false then
      1 + countDollarAux (cs.takeWhile Char.isDigit).length cs
    else countDollarAux 0 cs

def countDollarNumber (content : List Char) : Nat :=
  countDollarAux 0 content

/-- The joined marker counts of `ChangeDetector.hashContent`
(`[countBounty, countDollar, countOpen].join('-')`). -/
def bountyMarkers (content : String) : String :=
  String.intercalate "-"
    [toString (countCI "bounty".data content.data),
     toString (countDollarNumber content.data),
     toString (countCI "open".data content.data)]

/-- `ChangeDetector.hashContent`: SHA-256 over `bountyMarkers + content.length`,
hex-encoded and truncated to 16 chars — the digest pipeline is the opaque
external primitive `sha`. -/
def hashContent (sha : String → String) (content : String) : String :=
  sha (bountyMarkers content ++ toString content.length)

/-- `ChangeDetector.estimateBountyCount`. -/
def estimateBountyCount (html : String) : Nat :=
  let bountyCardMatches :=
    countMatches (fun a b => a == b) "data-testid=\"bounty-card\"".data html.data
  if bountyCardMatches > 0 then bountyCardMatches
  else countDollarNumber html.data

/-- `OrgState` from `src/scripts/detect-changes.ts`. -/
structure OrgState where
  url : String
  hash : String
  last_checked : String
  last_changed : Option String
  bounty_count_estimate : Option Nat
  deriving Repr, DecidableEq

/-- `DetectionState` (the persisted fingerprint store), keyed by org handle. -/
structure DetectionState where
  organizations : List (String × OrgState)
  deriving Repr, DecidableEq

/-- The fields of `OrganizationConfig` the detection script reads. -/
structure OrgConfig where
  handle : String
  url : String
  deriving Repr, DecidableEq

/-- `DetectionResult` from `src/scripts/detect-changes.ts`
(`execution_time_ms` is wall-clock time, not modelled). -/
structure DetectionResult where
  changed_orgs : List String
  unchanged_orgs : List String
  total_checked : Nat
  errors : List String
  is_first_run : Bool
  deriving Repr, DecidableEq

/-- `org.url || "https://algora.io/" + handle + "/bounties?status=open"`
(the empty string is falsy in JS). -/
def orgFetchUrl (org : OrgConfig) : String :=
  if org.url == "" then "https://algora.io/" ++ org.handle ++ "/bounties?status=open"
  else org.url

/-- `this.previousState?.organizations[org.handle]`. -/
def lookupOrgState (prev : Option DetectionState) (handle : String) : Option OrgState :=
  match prev with
  | none => none
  | some s => List.lookup handle s.organizations

/-- `const hasChanged = !previousOrgState || previousOrgState.hash !== hash`. -/
def hasChangedFlag (previousOrgState : Option OrgState) (hash : String) : Bool :=
  match previousOrgState with
  | none => true
  | some st => st.hash != hash

/-- Accumulator of the per-organization loop in `detectChanges`. -/
structure RunAcc where
  changed_orgs : List String
  unchanged_orgs : List String
  errors : List String
  newOrgs : List (String × OrgState)
  deriving Repr, DecidableEq

def emptyRunAcc : RunAcc :=
  { changed_orgs := [], unchanged_orgs := [], errors := [], newOrgs := [] }

/-- One iteration of the per-organization loop of
`ChangeDetector.detectChanges`: fetch, hash, compare to the stored state,
report, and write the new state; on a fetch/hash error record the error and
keep the previous state entry untouched. -/
def processOrg (sha : String → String) (now : String) (prev : Option DetectionState)
    (fetched : Except String String) (org : OrgConfig) (acc : RunAcc) : RunAcc :=
  let url := orgFetchUrl org
  let previousOrgState := lookupOrgState prev org.handle
  match fetched with
  | Except.ok html =>
    let hash := hashContent sha html
    let bountyCount := estimateBountyCount html
    let hasChanged := hasChangedFlag previousOrgState hash
    let newOrgState : OrgState :=
      { url := url, hash := hash, last_checked := now,
        last_changed := if hasChanged then some now
          else previousOrgState.bind OrgState.last_changed,
        bounty_count_estimate := some bountyCount }
    if hasChanged then
      { acc with changed_orgs := acc.changed_orgs ++ [org.handle],
                 newOrgs := acc.newOrgs ++ [(org.handle, newOrgState)] }
    else
      { acc with unchanged_orgs := acc.unchanged_orgs ++ [org.handle],
                 newOrgs := acc.newOrgs ++ [(org.handle, newOrgState)] }
  | Except.error msg =>
    { acc with errors := acc.errors ++ [org.handle ++ ": " ++ msg],
               newOrgs := acc.newOrgs ++
                 (match previousOrgState with
                  | some st => [(org.handle, st)]
                  | none => []) }

/-- `ChangeDetector.detectChanges`: process every organization (fetch outcomes
given by the oracle `fetch`), producing the run result and the saved state. -/
def detectChangesRun (sha : String → String) (now : String)
    (prev : Option DetectionState) (fetch : OrgConfig → Except String String)
    (orgs : List OrgConfig) : DetectionResult × DetectionState :=
  let acc := orgs.foldl (fun acc org => processOrg sha now prev (fetch org) org acc)
    emptyRunAcc
  ({ changed_orgs := acc.changed_orgs, unchanged_orgs := acc.unchanged_orgs,
     total_checked := orgs.length, errors := acc.errors,
     is_first_run := prev.isNone },
   { organizations := acc.newOrgs })

/-! ### Fold lemmas for the cheap-mode run -/

/-- What one organization alone contributes to the run accumulator. -/
def orgContrib (sha : String → String) (now : String) (prev : Option DetectionState)
    (fetched : Except String String) (org : OrgConfig) : RunAcc :=
  processOrg sha now prev fetched org emptyRunAcc

lemma processOrg_acc (sha : String → String) (now : String)
    (prev : Option DetectionState) (fetched : Except String String)
    (org : OrgConfig) (acc : RunAcc) :
    processOrg sha now prev fetched org acc =
      { changed_orgs := acc.changed_orgs ++
          (orgContrib sha now prev fetched org).changed_orgs,
        unchanged_orgs := acc.unchanged_orgs ++
          (orgContrib sha now prev fetched org).unchanged_orgs,
        errors := acc.errors ++ (orgContrib sha now prev fetched org).errors,
        newOrgs := acc.newOrgs ++ (orgContrib sha now prev fetched org).newOrgs } := by
  cases fetched with
  | ok html =>
    simp only [processOrg, orgContrib, emptyRunAcc]
    split <;> simp
  | error msg =>
    simp only [processOrg, orgContrib, emptyRunAcc]
    cases lookupOrgState prev org.handle <;> simp

lemma foldl_processOrg (sha : String → String) (now : String)
    (prev : Option DetectionState) (fetch : OrgConfig → Except String String) :
    ∀ (orgs : List OrgConfig) (acc : RunAcc),
    orgs.foldl (fun a o => processOrg sha now prev (fetch o) o a) acc =
      { changed_orgs := acc.changed_orgs ++
          orgs.flatMap (fun o => (orgContrib sha now prev (fetch o) o).changed_orgs),
        unchanged_orgs := acc.unchanged_orgs ++
          orgs.flatMap (fun o => (orgContrib sha now prev (fetch o) o).unchanged_orgs),
        errors := acc.errors ++
          orgs.flatMap (fun o => (orgContrib sha now prev (fetch o) o).errors),
        newOrgs := acc.newOrgs ++
          orgs.flatMap (fun o => (orgContrib sha now prev (fetch o) o).newOrgs) } := by
  intro orgs
  induction orgs with
  | nil => intro acc; cases acc; simp
  | cons o rest ih =>
    intro acc
    simp only [List.foldl_cons, List.flatMap_cons]
    rw [processOrg_acc, ih]
    simp [List.append_assoc]

lemma orgContrib_error_eq (sha : String → String) (now : String)
    (prev : Option DetectionState) (org : OrgConfig) (msg : String) :
    orgContrib sha now prev (Except.error msg) org =
      { changed_orgs := [], unchanged_orgs := [],
        errors := [org.handle ++ ": " ++ msg],
        newOrgs := (match lookupOrgState prev org.handle with
                    | some st => [(org.handle, st)]
                    | none => []) } := by
  simp only [orgContrib, processOrg, emptyRunAcc]
  cases lookupOrgState prev org.handle <;> simp

lemma orgContrib_changed_handle (sha : String → String) (now : String)
    (prev : Option DetectionState) (fetched : Except String String)
    (org : OrgConfig) (x : String)
    (hx : x ∈ (orgContrib sha now prev fetched org).changed_orgs) : x = org.handle := by
  cases fetched with
  | ok html =>
    simp only [orgContrib, processOrg, emptyRunAcc] at hx
    split at hx <;> simp at hx
    exact hx
  | error msg =>
    rw [orgContrib_error_eq] at hx
    simp at hx

lemma orgContrib_unchanged_handle (sha : String → String) (now : String)
    (prev : Option DetectionState) (fetched : Except String String)
    (org : OrgConfig) (x : String)
    (hx : x ∈ (orgContrib sha now prev fetched org).unchanged_orgs) : x = org.handle := by
  cases fetched with
  | ok html =>
    simp only [orgContrib, processOrg, emptyRunAcc] at hx
    split at hx <;> simp at hx
    exact hx
  | error msg =>
    rw [orgContrib_error_eq] at hx
    simp at hx

lemma orgContrib_newOrgs_key (sha : String → String) (now : String)
    (prev : Option DetectionState) (fetched : Except String String)
    (org : OrgConfig) (p : String × OrgState)
    (hp : p ∈ (orgContrib sha now prev fetched org).newOrgs) : p.1 = org.handle := by
  cases fetched with
  | ok html =>
    simp only [orgContrib, processOrg, emptyRunAcc] at hp
    split at hp <;> simp at hp <;> rw [hp]
  | error msg =>
    rw [orgContrib_error_eq] at hp
    revert hp
    cases lookupOrgState prev org.handle <;> intro hp <;> simp at hp
    rw [hp]

lemma detectChangesRun_fields (sha : String → String) (now : String)
    (prev : Option DetectionState) (fetch : OrgConfig → Except String String)
    (orgs : List OrgConfig) :
    (detectChangesRun sha now prev fetch orgs).1.changed_orgs =
      orgs.flatMap (fun o => (orgContrib sha now prev (fetch o) o).changed_orgs) ∧
    (detectChangesRun sha now prev fetch orgs).1.unchanged_orgs =
      orgs.flatMap (fun o => (orgContrib sha now prev (fetch o) o).unchanged_orgs) ∧
    (detectChangesRun sha now prev fetch orgs).1.errors =
      orgs.flatMap (fun o => (orgContrib sha now prev (fetch o) o).errors) ∧
    (detectChangesRun sha now prev fetch orgs).2.organizations =
      orgs.flatMap (fun o => (orgContrib sha now prev (fetch o) o).newOrgs) := by
  have hc : (detectChangesRun sha now prev fetch orgs).1.changed_orgs =
      (orgs.foldl (fun a o => processOrg sha now prev (fetch o) o a) emptyRunAcc).changed_orgs := rfl
  have hu : (detectChangesRun sha now prev fetch orgs).1.unchanged_orgs =
      (orgs.foldl (fun a o => processOrg sha now prev (fetch o) o a) emptyRunAcc).unchanged_orgs := rfl
  have he : (detectChangesRun sha now prev fetch orgs).1.errors =
      (orgs.foldl (fun a o => processOrg sha now prev (fetch o) o a) emptyRunAcc).errors := rfl
  have hn : (detectChangesRun sha now prev fetch orgs).2.organizations =
      (orgs.foldl (fun a o => processOrg sha now prev (fetch o) o a) emptyRunAcc).newOrgs := rfl
  rw [hc, hu, he, hn, foldl_processOrg]
  simp [emptyRunAcc]

/-- C2: for every resource whose fetch or hash computation fails during a
cheap-mode detection run, the stored fingerprint for that resource is retained
unchanged (the run's saved state holds exactly the previous entry, or none if
there was none), and the resource is reported in the errored set — never in
the changed set and never in the unchanged set. -/
theorem errored_org_fingerprint_retained (sha : String → String) (now : String)
    (prev : Option DetectionState) (fetch : OrgConfig → Except String String)
    (orgs : List OrgConfig) (o : OrgConfig) (msg : String)
    (hnd : (orgs.map OrgConfig.handle).Nodup)
    (ho : o ∈ orgs) (hf : fetch o = Except.error msg) :
    (o.handle ++ ": " ++ msg) ∈ (detectChangesRun sha now prev fetch orgs).1.errors ∧
    o.handle ∉ (detectChangesRun sha now prev fetch orgs).1.changed_orgs ∧
    o.handle ∉ (detectChangesRun sha now prev fetch orgs).1.unchanged_orgs ∧
    (∀ st : OrgState,
      ((o.handle, st) ∈ (detectChangesRun sha now prev fetch orgs).2.organizations ↔
        lookupOrgState prev o.handle = some st)) := by
  obtain ⟨hc, hu, he, hn⟩ := detectChangesRun_fields sha now prev fetch orgs
  refine ⟨?_, ?_, ?_, ?_⟩
  · rw [he]
    refine List.mem_flatMap.mpr ⟨o, ho, ?_⟩
    rw [hf, orgContrib_error_eq]
    simp
  · rw [hc]
    intro hmem
    rcases List.mem_flatMap.mp hmem with ⟨o', ho', hx⟩
    have hh : o.handle = o'.handle :=
      orgContrib_changed_handle sha now prev (fetch o') o' o.handle hx
    have : o' = o :=
      List.inj_on_of_nodup_map hnd ho' ho hh.symm
    rw [this, hf, orgContrib_error_eq] at hx
    simp at hx
  · rw [hu]
    intro hmem
    rcases List.mem_flatMap.mp hmem with ⟨o', ho', hx⟩
    have hh : o.handle = o'.handle :=
      orgContrib_unchanged_handle sha now prev (fetch o') o' o.handle hx
    have : o' = o :=
      List.inj_on_of_nodup_map hnd ho' ho hh.symm
    rw [this, hf, orgContrib_error_eq] at hx
    simp at hx
  · intro st
    rw [hn]
    constructor
    · intro hmem
      rcases List.mem_flatMap.mp hmem with ⟨o', ho', hp⟩
      have hh : (o.handle, st).1 = o'.handle :=
        orgContrib_newOrgs_key sha now prev (fetch o') o' _ hp
      have : o' = o :=
        List.inj_on_of_nodup_map hnd ho' ho hh.symm
      rw [this, hf, orgContrib_error_eq] at hp
      revert hp
      cases hl : lookupOrgState prev o.handle <;> intro hp <;> simp at hp
      rw [hp]
    · intro hl
      refine List.mem_flatMap.mpr ⟨o, ho, ?_⟩
      rw [hf, orgContrib_error_eq, hl]
      simp

/-- Witness for C2 at a concrete run: one org whose fetch fails, with a stored
previous fingerprint. -/
theorem errored_org_fingerprint_retained_witness :
    (("acme" ++ ": " ++ "HTTP 500") ∈
      (detectChangesRun (fun s => s) "t1"
        (some ⟨[("acme", ⟨"u", "h0", "t0", none, none⟩)]⟩)
        (fun _ => Except.error "HTTP 500") [⟨"acme", "u"⟩]).1.errors ∧
    "acme" ∉ (detectChangesRun (fun s => s) "t1"
        (some ⟨[("acme", ⟨"u", "h0", "t0", none, none⟩)]⟩)
        (fun _ => Except.error "HTTP 500") [⟨"acme", "u"⟩]).1.changed_orgs ∧
    "acme" ∉ (detectChangesRun (fun s => s) "t1"
        (some ⟨[("acme", ⟨"u", "h0", "t0", none, none⟩)]⟩)
        (fun _ => Except.error "HTTP 500") [⟨"acme", "u"⟩]).1.unchanged_orgs ∧
    (∀ st : OrgState,
      (("acme", st) ∈ (detectChangesRun (fun s => s) "t1"
        (some ⟨[("acme", ⟨"u", "h0", "t0", none, none⟩)]⟩)
        (fun _ => Except.error "HTTP 500") [⟨"acme", "u"⟩]).2.organizations ↔
        lookupOrgState (some ⟨[("acme", ⟨"u", "h0", "t0", none, none⟩)]⟩) "acme" = some st))) :=
  errored_org_fingerprint_retained (fun s => s) "t1"
    (some ⟨[("acme", ⟨"u", "h0", "t0", none, none⟩)]⟩)
    (fun _ => Except.error "HTTP 500") [⟨"acme", "u"⟩] ⟨"acme", "u"⟩ "HTTP 500"
    (by simp) (by simp) rfl

/-- C1: `compareIndices` computes set difference by bounty id — an id is
reported among `added_bounties` iff it occurs in the current index but not the
previous one, among `removed_bounties` iff it occurs in the previous index but
not the current one, among `updated_bounties` only if it occurs in both; and
no id is reported in more than one of the three sets. -/
theorem compareIndices_id_partition (previous current : BountyIndex) :
    (∀ i : String,
      ((∃ b ∈ (compareIndices previous current).added_bounties, b.id = i) ↔
        (idOccurs current i ∧ ¬ idOccurs previous i)) ∧
      ((∃ b ∈ (compareIndices previous current).removed_bounties, b.id = i) ↔
        (idOccurs previous i ∧ ¬ idOccurs current i)) ∧
      (updatedIdReported (compareIndices previous current) i →
        (idOccurs previous i ∧ idOccurs current i))) ∧
    (∀ i : String,
      ¬((∃ b ∈ (compareIndices previous current).added_bounties, b.id = i) ∧
        (∃ b ∈ (compareIndices previous current).removed_bounties, b.id = i)) ∧
      ¬((∃ b ∈ (compareIndices previous current).added_bounties, b.id = i) ∧
        updatedIdReported (compareIndices previous current) i) ∧
      ¬((∃ b ∈ (compareIndices previous current).removed_bounties, b.id = i) ∧
        updatedIdReported (compareIndices previous current) i)) := by
  refine ⟨fun i => ⟨added_id_iff previous current i, removed_id_iff previous current i,
    updated_id_occurs_both previous current i⟩, fun i => ⟨?_, ?_, ?_⟩⟩
  · rintro ⟨ha, hr⟩
    exact ((added_id_iff previous current i).mp ha).2
      ((removed_id_iff previous current i).mp hr).1
  · rintro ⟨ha, hu⟩
    exact ((added_id_iff previous current i).mp ha).2
      (updated_id_occurs_both previous current i hu).1
  · rintro ⟨hr, hu⟩
    exact ((removed_id_iff previous current i).mp hr).2
      (updated_id_occurs_both previous current i hu).2

/-- C3: with no previous index, full-mode detection reports every observed
bounty as added, removes and updates nothing, lists every organization as
added, and sets `has_changes`; and a cheap-mode run with no previous state
flags `is_first_run = true`. -/
theorem first_run_everything_added (cur : BountyIndex) :
    (fullDetectChanges none cur).added_bounties = extractAllBounties cur ∧
    (fullDetectChanges none cur).removed_bounties = [] ∧
    (fullDetectChanges none cur).updated_bounties = [] ∧
    (fullDetectChanges none cur).organizations_added = cur.organizations.map Prod.fst ∧
    (fullDetectChanges none cur).organizations_removed = [] ∧
    (fullDetectChanges none cur).has_changes = true ∧
    (∀ (sha : String → String) (now : String)
        (fetch : OrgConfig → Except String String) (orgs : List OrgConfig),
      (detectChangesRun sha now none fetch orgs).1.is_first_run = true) :=
  ⟨rfl, rfl, rfl, rfl, rfl, rfl, fun _ _ _ _ => rfl⟩

lemma singleOrg_unchanged (sha : String → String) (now html : String)
    (org : OrgConfig) (st : OrgState) (stateOrgs : List (String × OrgState))
    (hlook : List.lookup org.handle stateOrgs = some st)
    (hhash : st.hash = hashContent sha html) :
    (detectChangesRun sha now (some ⟨stateOrgs⟩)
        (fun _ => Except.ok html) [org]).1.unchanged_orgs = [org.handle] ∧
    (detectChangesRun sha now (some ⟨stateOrgs⟩)
        (fun _ => Except.ok html) [org]).1.changed_orgs = [] ∧
    (List.lookup org.handle
        (detectChangesRun sha now (some ⟨stateOrgs⟩)
          (fun _ => Except.ok html) [org]).2.organizations).map OrgState.hash =
      some st.hash := by
  obtain ⟨hc, hu, _, hn⟩ := detectChangesRun_fields sha now (some ⟨stateOrgs⟩)
    (fun _ => Except.ok html) [org]
  have hflag : hasChangedFlag (lookupOrgState (some ⟨stateOrgs⟩) org.handle)
      (hashContent sha html) = false := by
    simp only [lookupOrgState, hlook, hasChangedFlag]
    rw [← hhash]
    simp
  have hcontrib : orgContrib sha now (some ⟨stateOrgs⟩) (Except.ok html) org =
      { changed_orgs := [], unchanged_orgs := [org.handle], errors := [],
        newOrgs := [(org.handle,
          { url := orgFetchUrl org, hash := hashContent sha html,
            last_checked := now,
            last_changed := (lookupOrgState (some ⟨stateOrgs⟩) org.handle).bind
              OrgState.last_changed,
            bounty_count_estimate := some (estimateBountyCount html) })] } := by
    simp only [orgContrib, processOrg, emptyRunAcc, hflag]
    simp
  refine ⟨?_, ?_, ?_⟩
  · rw [hu]; simp [hcontrib]
  · rw [hc]; simp [hcontrib]
  · rw [hn]
    simp only [List.flatMap_cons, List.flatMap_nil, List.append_nil, hcontrib]
    simp [List.lookup, hhash]

/-- C4 (amended): comparing an index with pairwise-distinct bounty ids against
itself yields the empty change set with `has_changes = false`; and a
cheap-mode re-check over identical (same-hash) content reports the
organization as unchanged and keeps the stored hash fingerprint identical. -/
theorem detect_idempotent_on_nodup_index (I : BountyIndex)
    (h : ((extractAllBounties I).map Bounty.id).Nodup) :
    compareIndices I I =
      { has_changes := false, added_bounties := [], removed_bounties := [],
        updated_bounties := [], organizations_added := [],
        organizations_removed := [], summary := "No changes detected" } ∧
    (∀ (sha : String → String) (now html : String) (org : OrgConfig)
        (st : OrgState) (stateOrgs : List (String × OrgState)),
      List.lookup org.handle stateOrgs = some st →
      st.hash = hashContent sha html →
      (detectChangesRun sha now (some ⟨stateOrgs⟩)
          (fun _ => Except.ok html) [org]).1.unchanged_orgs = [org.handle] ∧
      (detectChangesRun sha now (some ⟨stateOrgs⟩)
          (fun _ => Except.ok html) [org]).1.changed_orgs = [] ∧
      (List.lookup org.handle
          (detectChangesRun sha now (some ⟨stateOrgs⟩)
            (fun _ => Except.ok html) [org]).2.organizations).map OrgState.hash =
        some st.hash) :=
  ⟨compareIndices_self I h,
   fun sha now html org st stateOrgs hlook hhash =>
     singleOrg_unchanged sha now html org st stateOrgs hlook hhash⟩

/-- Witness for C4's amended theorem at a concrete index and a concrete
cheap-mode re-check. -/
theorem detect_idempotent_on_nodup_index_witness :
    ((extractAllBounties
        { organizations := [("test-org", { bounties :=
            [{ id := "x#1", title := "A", amount_usd := 100, status := "open",
               url := "u", difficulty := "d", tags := [] }] })] }).map Bounty.id).Nodup ∧
    compareIndices
      { organizations := [("test-org", { bounties :=
          [{ id := "x#1", title := "A", amount_usd := 100, status := "open",
             url := "u", difficulty := "d", tags := [] }] })] }
      { organizations := [("test-org", { bounties :=
          [{ id := "x#1", title := "A", amount_usd := 100, status := "open",
             url := "u", difficulty := "d", tags := [] }] })] } =
      { has_changes := false, added_bounties := [], removed_bounties := [],
        updated_bounties := [], organizations_added := [],
        organizations_removed := [], summary := "No changes detected" } := by
  refine ⟨by decide, ?_⟩
  exact (detect_idempotent_on_nodup_index
    { organizations := [("test-org", { bounties :=
        [{ id := "x#1", title := "A", amount_usd := 100, status := "open",
           url := "u", difficulty := "d", tags := [] }] })] } (by decide)).1

/-- C10: the cheap-mode content signature is a function of exactly four
observables of the fetched HTML — the `/bounty/gi` match count, the `/\$\d+/g`
match count, the `/open/gi` match count and the content length.  Any two
contents agreeing on all four get the identical signature, so the detector
reports such a pair as unchanged even when the contents differ elsewhere. -/
theorem hashContent_function_of_observables
    (sha : String → String) (c1 c2 : String)
    (h1 : countCI "bounty".data c1.data = countCI "bounty".data c2.data)
    (h2 : countDollarNumber c1.data = countDollarNumber c2.data)
    (h3 : countCI "open".data c1.data = countCI "open".data c2.data)
    (h4 : c1.length = c2.length) :
    hashContent sha c1 = hashContent sha c2 ∧
    (∀ (now : String) (org : OrgConfig) (st : OrgState)
        (stateOrgs : List (String × OrgState)),
      List.lookup org.handle stateOrgs = some st →
      st.hash = hashContent sha c1 →
      (detectChangesRun sha now (some ⟨stateOrgs⟩)
          (fun _ => Except.ok c2) [org]).1.unchanged_orgs = [org.handle] ∧
      (detectChangesRun sha now (some ⟨stateOrgs⟩)
          (fun _ => Except.ok c2) [org]).1.changed_orgs = []) := by
  have hmark : bountyMarkers c1 = bountyMarkers c2 := by
    unfold bountyMarkers
    rw [h1, h2, h3]
  have hhc : hashContent sha c1 = hashContent sha c2 := by
    unfold hashContent
    rw [hmark, h4]
  refine ⟨hhc, ?_⟩
  intro now org st stateOrgs hlook hst
  have h := singleOrg_unchanged sha now c2 org st stateOrgs hlook (hst.trans hhc)
  exact ⟨h.1, h.2.1⟩

/-- Witness for C10 on two different contents with equal observables. -/
theorem hashContent_function_of_observables_witness :
    hashContent (fun s => s) "ab" = hashContent (fun s => s) "cd" ∧
    (detectChangesRun (fun s => s) "t1"
        (some ⟨[("acme", ⟨"u", hashContent (fun s => s) "ab", "t0", none, none⟩)]⟩)
        (fun _ => Except.ok "cd") [⟨"acme", "u"⟩]).1.unchanged_orgs = ["acme"] ∧
    "ab" ≠ "cd" := by
  have h := hashContent_function_of_observables (fun s => s) "ab" "cd"
    (by decide) (by decide) (by decide) (by decide)
  refine ⟨h.1, ?_, by decide⟩
  exact (h.2 "t1" ⟨"acme", "u"⟩ ⟨"u", hashContent (fun s => s) "ab", "t0", none, none⟩
    [("acme", ⟨"u", hashContent (fun s => s) "ab", "t0", none, none⟩)] rfl rfl).1

/-! ### Event Coalescer (src/cloudflare-worker/webhook-forwarder.js)

The worker keeps a module-level `pendingChanges` set and a single pending
timeout.  Each accepted signal adds its org to the set, clears any existing
timeout and schedules a new one `BATCHING_WINDOW_MS` later; when the timeout
fires undisturbed it emits the whole set and clears it.  We model the state
with absolute deadlines and process a time-ordered trace of signals.
-/

def BATCHING_WINDOW_MS : Nat := 120000

/-- Module state: `pendingChanges` (a JS `Set`, dedup in insertion order) and
the absolute deadline of `batchTimeout`, if one is scheduled. -/
structure WorkerState where
  pendingChanges : List String
  batchTimeout : Option Nat
  deriving Repr, DecidableEq

def initialWorkerState : WorkerState :=
  { pendingChanges := [], batchTimeout := none }

/-- `pendingChanges.add(orgHandle)`. -/
def addPending (org : String) (l : List String) : List String :=
  if l.contains org then l else l ++ [org]

/-- Handling one accepted signal at time `t`: add to the pending set,
`clearTimeout` any open window and `setTimeout` a fresh full window. -/
def signalStep (s : WorkerState) (t : Nat) (org : String) : WorkerState :=
  { pendingChanges := addPending org s.pendingChanges,
    batchTimeout := some (t + BATCHING_WINDOW_MS) }

/-- The timeout callback: `triggerGitHubActions(pendingChanges)`, then
`pendingChanges.clear()` and `batchTimeout = null`. -/
def fireBatch (s : WorkerState) : WorkerState × List String :=
  ({ pendingChanges := [], batchTimeout := none }, s.pendingChanges)

/-- Process a time-ordered signal trace; a timer whose deadline is reached
before a signal arrives fires (and emits) first. -/
def runSignals : WorkerState → List (Nat × String) → WorkerState × List (List String)
  | s, [] => (s, [])
  | s, (t, org) :: rest =>
    match s.batchTimeout with
    | some d =>
      if d ≤ t then
        let fired := fireBatch s
        let next := runSignals (signalStep fired.1 t org) rest
        (next.1, fired.2 :: next.2)
      else runSignals (signalStep s t org) rest
    | none => runSignals (signalStep s t org) rest

/-- Full run from the initial state: process the trace, then let a
still-scheduled timer fire if its deadline is reached by `endTime`. -/
def coalescerRun (signals : List (Nat × String)) (endTime : Nat) :
    WorkerState × List (List String) :=
  let after := runSignals initialWorkerState signals
  match after.1.batchTimeout with
  | some d =>
    if d ≤ endTime then
      let fired := fireBatch after.1
      (fired.1, after.2 ++ [fired.2])
    else after
  | none => after

/-- Continuous pressure: every signal arrives strictly before the deadline
open at its arrival (so the debounce timer never fires mid-trace). -/
def tightB : Option Nat → List (Nat × String) → Bool
  | _, [] => true
  | none, (t, _) :: rest => tightB (some (t + BATCHING_WINDOW_MS)) rest
  | some d, (t, _) :: rest => decide (t < d) && tightB (some (t + BATCHING_WINDOW_MS)) rest

/-- The deadline left scheduled after a trace (given the deadline open before
it). -/
def lastDeadline : Option Nat → List (Nat × String) → Option Nat
  | dflt, [] => dflt
  | _, (t, _) :: rest => lastDeadline (some (t + BATCHING_WINDOW_MS)) rest

lemma runSignals_tight : ∀ (sig : List (Nat × String)) (s : WorkerState),
    tightB s.batchTimeout sig = true →
    (runSignals s sig).2 = [] ∧
    (runSignals s sig).1.pendingChanges =
      sig.foldl (fun acc p => addPending p.2 acc) s.pendingChanges ∧
    (runSignals s sig).1.batchTimeout = lastDeadline s.batchTimeout sig := by
  intro sig
  induction sig with
  | nil => intro s _; exact ⟨rfl, rfl, rfl⟩
  | cons p rest ih =>
    intro s ht
    obtain ⟨t, org⟩ := p
    cases hb : s.batchTimeout with
    | none =>
      rw [hb] at ht
      simp only [tightB] at ht
      have hnext := ih (signalStep s t org) (by simpa [signalStep] using ht)
      refine ⟨?_, ?_, ?_⟩
      · simpa [runSignals, hb] using hnext.1
      · simpa [runSignals, hb, signalStep, List.foldl_cons] using hnext.2.1
      · simpa [runSignals, hb, signalStep, lastDeadline] using hnext.2.2
    | some d =>
      rw [hb] at ht
      simp only [tightB, Bool.and_eq_true, decide_eq_true_eq] at ht
      have hlt : ¬ d ≤ t := Nat.not_le.mpr ht.1
      have hnext := ih (signalStep s t org) (by simpa [signalStep] using ht.2)
      refine ⟨?_, ?_, ?_⟩
      · simpa [runSignals, hb, hlt] using hnext.1
      · simpa [runSignals, hb, hlt, signalStep, List.foldl_cons] using hnext.2.1
      · simpa [runSignals, hb, hlt, signalStep, lastDeadline] using hnext.2.2

lemma mem_addPending (org x : String) (l : List String) :
    x ∈ addPending org l ↔ x ∈ l ∨ x = org := by
  by_cases hc : l.contains org = true
  · rw [addPending, if_pos hc]
    have horg : org ∈ l := by simpa using hc
    constructor
    · exact Or.inl
    · rintro (h | rfl)
      · exact h
      · exact horg
  · rw [addPending, if_neg hc]
    simp

lemma nodup_addPending (org : String) (l : List String) (h : l.Nodup) :
    (addPending org l).Nodup := by
  by_cases hc : l.contains org = true
  · rw [addPending, if_pos hc]; exact h
  · rw [addPending, if_neg hc]
    have : org ∉ l := by simpa using hc
    simp [List.nodup_append, h, this]

lemma mem_foldl_addPending : ∀ (sig : List (Nat × String)) (acc : List String) (x : String),
    x ∈ sig.foldl (fun acc p => addPending p.2 acc) acc ↔
      x ∈ acc ∨ ∃ p ∈ sig, p.2 = x := by
  intro sig
  induction sig with
  | nil => simp
  | cons p rest ih =>
    intro acc x
    rw [List.foldl_cons, ih, mem_addPending]
    simp only [List.mem_cons]
    constructor
    · rintro ((h | h) | ⟨q, hq, hx⟩)
      · exact Or.inl h
      · exact Or.inr ⟨p, Or.inl rfl, h.symm⟩
      · exact Or.inr ⟨q, Or.inr hq, hx⟩
    · rintro (h | ⟨q, hq | hq, hx⟩)
      · exact Or.inl (Or.inl h)
      · exact Or.inl (Or.inr (by rw [← hx, hq]))
      · exact Or.inr ⟨q, hq, hx⟩

lemma nodup_foldl_addPending : ∀ (sig : List (Nat × String)) (acc : List String),
    acc.Nodup → (sig.foldl (fun acc p => addPending p.2 acc) acc).Nodup := by
  intro sig
  induction sig with
  | nil => intro acc h; exact h
  | cons p rest ih =>
    intro acc h
    rw [List.foldl_cons]
    exact ih _ (nodup_addPending p.2 acc h)

/-- C6: any trace of signals that all arrive within the rolling quiet window,
followed by silence past the final deadline, makes the coalescer emit exactly
one batch — the deduplicated set of signalled orgs (each org once, so a
repeated org appears once) — and clears the pending set and the timer. -/
theorem coalescer_emits_single_dedup_batch (sig : List (Nat × String)) (endTime : Nat)
    (ht : tightB none sig = true)
    (hfire : ∃ d, lastDeadline none sig = some d ∧ d ≤ endTime) :
    (coalescerRun sig endTime).2 =
      [sig.foldl (fun acc p => addPending p.2 acc) []] ∧
    (∀ x, x ∈ sig.foldl (fun acc p => addPending p.2 acc) [] ↔ ∃ p ∈ sig, p.2 = x) ∧
    (sig.foldl (fun acc p => addPending p.2 acc) []).Nodup ∧
    (coalescerRun sig endTime).1.pendingChanges = [] ∧
    (coalescerRun sig endTime).1.batchTimeout = none := by
  obtain ⟨d, hd, hde⟩ := hfire
  have hrun := runSignals_tight sig initialWorkerState ht
  have hbt : (runSignals initialWorkerState sig).1.batchTimeout = some d := by
    rw [hrun.2.2]; exact hd
  have hpend : (runSignals initialWorkerState sig).1.pendingChanges =
      sig.foldl (fun acc p => addPending p.2 acc) [] := hrun.2.1
  refine ⟨?_, ?_, ?_, ?_, ?_⟩
  · simp only [coalescerRun, hbt, hde, if_pos, fireBatch]
    rw [hrun.1, hpend]
    rfl
  · intro x
    rw [mem_foldl_addPending]
    simp
  · exact nodup_foldl_addPending sig [] (by simp)
  · simp only [coalescerRun, hbt, hde, if_pos, fireBatch]
  · simp only [coalescerRun, hbt, hde, if_pos, fireBatch]

/-- Witness for C6: signals for a, b and again a inside one window, then
silence: one batch [a, b], pending cleared. -/
theorem coalescer_emits_single_dedup_batch_witness :
    (coalescerRun [(0, "a"), (1000, "b"), (2000, "a")] 200000).2 = [["a", "b"]] ∧
    (coalescerRun [(0, "a"), (1000, "b"), (2000, "a")] 200000).1.pendingChanges = [] := by
  have h := coalescer_emits_single_dedup_batch [(0, "a"), (1000, "b"), (2000, "a")]
    200000 (by decide) ⟨122000, by decide, by decide⟩
  refine ⟨?_, h.2.2.2.1⟩
  rw [h.1]
  decide

/-- A trace of signals for one org every 60 s starting at `start`. -/
def pressureFrom : Nat → Nat → List (Nat × String)
  | _, 0 => []
  | start, n + 1 => (start, "org-a") :: pressureFrom (start + 60000) n

lemma pressure_tightB : ∀ (n start : Nat),
    tightB (some (start + BATCHING_WINDOW_MS)) (pressureFrom (start + 60000) n) = true := by
  intro n
  induction n with
  | zero => intro start; rfl
  | succ n ih =>
    intro start
    simp only [pressureFrom, tightB, Bool.and_eq_true, decide_eq_true_eq]
    exact ⟨by simp [BATCHING_WINDOW_MS], ih (start + 60000)⟩

lemma pressure_lastDeadline : ∀ (n start : Nat) (dflt : Option Nat),
    lastDeadline dflt (pressureFrom start (n + 1)) =
      some (start + n * 60000 + BATCHING_WINDOW_MS) := by
  intro n
  induction n with
  | zero => intro start dflt; simp [pressureFrom, lastDeadline]
  | succ n ih =>
    intro start dflt
    show lastDeadline (some (start + BATCHING_WINDOW_MS))
      (pressureFrom (start + 60000) (n + 1)) = _
    rw [ih (start + 60000)]
    congr 1
    omega

lemma pressure_no_emission (n : Nat) :
    (coalescerRun (pressureFrom 0 (n + 1)) (n * 60000)).2 = [] := by
  have ht : tightB none (pressureFrom 0 (n + 1)) = true := by
    show tightB none ((0, "org-a") :: pressureFrom (0 + 60000) n) = true
    simp only [tightB]
    exact pressure_tightB n 0
  have hrun := runSignals_tight (pressureFrom 0 (n + 1)) initialWorkerState ht
  have hbt : (runSignals initialWorkerState (pressureFrom 0 (n + 1))).1.batchTimeout =
      some (0 + n * 60000 + BATCHING_WINDOW_MS) := by
    rw [hrun.2.2]; exact pressure_lastDeadline n 0 _
  have hnle : ¬ (0 + n * 60000 + BATCHING_WINDOW_MS ≤ n * 60000) := by
    simp [BATCHING_WINDOW_MS]
  simp only [coalescerRun, hbt, hnle, if_neg, ite_false]
  exact hrun.1

/-- Modelled from the spec: "bounded by a hard maximum window length to
guarantee forward progress under continuous signal pressure" — some positive
cap `M` such that, under a continuous 60 s-spaced signal stream, at least one
batch has been emitted once the elapsed time reaches `M`.  The worker source
has no such cap (`setTimeout` is simply reset on every signal). -/
def hasHardMaximumWindow : Prop :=
  ∃ M : Nat, 0 < M ∧ ∀ n : Nat, M ≤ n * 60000 →
    (coalescerRun (pressureFrom 0 (n + 1)) (n * 60000)).2 ≠ []

/-- C5 counterexample: the coalescer has NO hard maximum window length —
under continuous signal pressure the batch is postponed indefinitely. -/
theorem no_hard_maximum_window : ¬ hasHardMaximumWindow := by
  rintro ⟨M, hM, hall⟩
  have h1 : M ≤ M * 60000 := by
    have := Nat.mul_le_mul_left M (show 1 ≤ 60000 by omega)
    simpa using this
  exact hall M h1 (pressure_no_emission M)

/-- C5 (amended): every signal arriving while a window is open extends
(resets) the window to a full `BATCHING_WINDOW_MS` from its arrival instead of
emitting (debounce); but there is no hard maximum window length — under
continuous signal pressure no batch is ever emitted (the periodic full scan
is the out-of-scope backstop). -/
theorem coalescer_debounce_and_unbounded_window :
    (∀ (s : WorkerState) (t : Nat) (org : String) (d : Nat),
      s.batchTimeout = some d → t < d →
      (runSignals s [(t, org)]).2 = [] ∧
      (runSignals s [(t, org)]).1.batchTimeout = some (t + BATCHING_WINDOW_MS) ∧
      (runSignals s [(t, org)]).1.pendingChanges = addPending org s.pendingChanges) ∧
    (∀ n : Nat, (coalescerRun (pressureFrom 0 (n + 1)) (n * 60000)).2 = []) := by
  constructor
  · intro s t org d hb hlt
    have hnle : ¬ d ≤ t := Nat.not_le.mpr hlt
    refine ⟨?_, ?_, ?_⟩ <;> simp [runSignals, hb, hnle, signalStep]
  · exact pressure_no_emission

/-- Witness for C5's amended theorem at a concrete open window and a concrete
pressure trace. -/
theorem coalescer_debounce_and_unbounded_window_witness :
    (runSignals ⟨["a"], some 120000⟩ [(60000, "b")]).2 = [] ∧
    (runSignals ⟨["a"], some 120000⟩ [(60000, "b")]).1.batchTimeout =
      some (60000 + BATCHING_WINDOW_MS) ∧
    (coalescerRun (pressureFrom 0 3) (2 * 60000)).2 = [] := by
  have h := coalescer_debounce_and_unbounded_window
  have h1 := h.1 ⟨["a"], some 120000⟩ 60000 "b" 120000 rfl (by omega)
  exact ⟨h1.1, h1.2.1, h.2 2⟩

/-! ### Push signal endpoint (webhook-forwarder.js fetch handler) -/

/-- The payload fields `extractOrgHandle` reads
(`payload.watch_url || payload.url || payload.message`). -/
structure WebhookPayload where
  watch_url : Option String
  url : Option String
  message : Option String
  deriving Repr, DecidableEq

/-- JS `a || b` over possibly-absent strings (the empty string is falsy). -/
def jsOrStr (a b : Option String) : Option String :=
  match a with
  | some s => if s == "" then b else some s
  | none => b

/-- `ps` is a (case-sensitive) prefix of `cs`, returning the remainder. -/
def stripPrefixChars : List Char → List Char → Option (List Char)
  | [], cs => some cs
  | _ :: _, [] => none
  | p :: ps, c :: cs => if p == c then stripPrefixChars ps cs else none

/-- Try `/algora\.io\/([^\/]+)\/bounties/` anchored at this position: the
literal `algora.io/`, then a non-empty run of non-slash characters (greedy),
then the literal `/bounties`. -/
def matchAlgoraAt (cs : List Char) : Option String :=
  match stripPrefixChars "algora.io/".data cs with
  | none => none
  | some rest =>
    let seg := rest.takeWhile (fun c => c != '/')
    if seg.isEmpty then none
    else if startsWithPat (fun a b => a == b) "/bounties".data
        (rest.dropWhile (fun c => c != '/')) then
      some (String.mk seg)
    else none

/-- `watchUrl.match(/algora\.io\/([^\/]+)\/bounties/)`: leftmost match. -/
def scanAlgora : List Char → Option String
  | [] => none
  | c :: cs =>
    match matchAlgoraAt (c :: cs) with
    | some h => some h
    | none => scanAlgora cs

/-- `extractOrgHandle` from the worker (`if (!watchUrl) return null` guards
the falsy empty string as well as absence). -/
def extractOrgHandle (payload : WebhookPayload) : Option String :=
  match jsOrStr payload.watch_url (jsOrStr payload.url payload.message) with
  | none => none
  | some s => if s == "" then none else scanAlgora s.data

/-- The two POST outcomes of the fetch handler we model: a 400
`Invalid payload` rejection, or a 200 JSON acknowledgement carrying
`success: true`, the org and the queued set. -/
inductive HandlerResult
  | invalidPayload
  | accepted (org : String) (queued : List String)
  deriving Repr, DecidableEq

/-- The POST branch of the fetch handler after JSON parsing: extract the org
handle; on failure answer 400 without touching the state; on success add the
org to the pending set, reset the window and acknowledge. -/
def handleSignal (s : WorkerState) (t : Nat) (payload : WebhookPayload) :
    WorkerState × HandlerResult :=
  match extractOrgHandle payload with
  | none => (s, HandlerResult.invalidPayload)
  | some orgHandle =>
    let s1 := signalStep s t orgHandle
    (s1, HandlerResult.accepted orgHandle s1.pendingChanges)

def responseStatus : HandlerResult → Nat
  | HandlerResult.invalidPayload => 400
  | HandlerResult.accepted _ _ => 200

def acknowledgesSuccess : HandlerResult → Bool
  | HandlerResult.invalidPayload => false
  | HandlerResult.accepted _ _ => true

lemma startsWithPat_beq_append (pat rest : List Char) :
    startsWithPat (fun a b => a == b) pat (pat ++ rest) = true := by
  induction pat with
  | nil => rfl
  | cons p ps ih => simp [startsWithPat, ih]

lemma takeWhile_all_append (p : Char → Bool) (l1 : List Char) (x : Char)
    (l2 : List Char) (h1 : ∀ c ∈ l1, p c = true) (hx : p x = false) :
    (l1 ++ x :: l2).takeWhile p = l1 := by
  induction l1 with
  | nil => simp [List.takeWhile_cons, hx]
  | cons c cs ih =>
    have hc : p c = true := h1 c (by simp)
    simp only [List.cons_append, List.takeWhile_cons, hc]
    rw [ih (fun c hc' => h1 c (by simp [hc']))]
    simp

lemma dropWhile_all_append (p : Char → Bool) (l1 : List Char) (x : Char)
    (l2 : List Char) (h1 : ∀ c ∈ l1, p c = true) (hx : p x = false) :
    (l1 ++ x :: l2).dropWhile p = x :: l2 := by
  induction l1 with
  | nil => simp [List.dropWhile_cons, hx]
  | cons c cs ih =>
    have hc : p c = true := h1 c (by simp)
    simp only [List.cons_append, List.dropWhile_cons, hc]
    simpa using ih (fun c hc' => h1 c (by simp [hc']))

lemma matchAlgoraAt_pattern (orgChars : List Char) (post : List Char)
    (hne : orgChars ≠ []) (hns : ∀ c ∈ orgChars, (c == '/') = false) :
    matchAlgoraAt ("algora.io/".data ++ (orgChars ++ ('/' :: "bounties".data ++ post))) =
      some (String.mk orgChars) := by
  have hstrip : stripPrefixChars "algora.io/".data
      ("algora.io/".data ++ (orgChars ++ ('/' :: "bounties".data ++ post))) =
      some (orgChars ++ ('/' :: "bounties".data ++ post)) := by
    simp [stripPrefixChars]
  have hall : ∀ c ∈ orgChars, (c != '/') = true := by
    intro c hc
    simp only [bne, hns c hc, Bool.not_false]
  have htake : (orgChars ++ ('/' :: ("bounties".data ++ post))).takeWhile
      (fun c => c != '/') = orgChars :=
    takeWhile_all_append _ orgChars '/' _ hall (by decide)
  have hdrop : (orgChars ++ ('/' :: ("bounties".data ++ post))).dropWhile
      (fun c => c != '/') = '/' :: ("bounties".data ++ post) :=
    dropWhile_all_append _ orgChars '/' _ hall (by decide)
  have hemp : orgChars.isEmpty = false := by
    cases orgChars with
    | nil => exact absurd rfl hne
    | cons c cs => rfl
  rw [matchAlgoraAt, hstrip]
  simp only [List.append_assoc, List.cons_append] at htake hdrop ⊢
  rw [htake, hdrop]
  simp [hemp, startsWithPat]

lemma algora_data : "algora.io/".data =
    ['a', 'l', 'g', 'o', 'r', 'a', '.', 'i', 'o', '/'] := rfl

lemma matchAlgoraAt_not_a (c : Char) (hc : (c == 'a') = false) (rest : List Char) :
    matchAlgoraAt (c :: rest) = none := by
  rw [matchAlgoraAt, algora_data]
  have : ('a' == c) = false := by
    simp only [beq_eq_false_iff_ne] at hc ⊢
    exact fun he => hc he.symm
  simp [stripPrefixChars, this]

lemma scanAlgora_cons_none (c : Char) (cs : List Char)
    (h : matchAlgoraAt (c :: cs) = none) :
    scanAlgora (c :: cs) = scanAlgora cs := by
  simp only [scanAlgora, h]

lemma scanAlgora_cons_some (c : Char) (cs : List Char) (h' : String)
    (h : matchAlgoraAt (c :: cs) = some h') :
    scanAlgora (c :: cs) = some h' := by
  simp only [scanAlgora, h]

/-- The documented URL pattern: for any non-slash, non-empty org segment, the
org handle is extracted from `https://algora.io/{org}/bounties...`. -/
lemma scanAlgora_url (org post : String)
    (hne : org.data ≠ []) (hns : ∀ c ∈ org.data, (c == '/') = false) :
    scanAlgora ("https://algora.io/" ++ org ++ "/bounties" ++ post).data = some org := by
  have hdata : ("https://algora.io/" ++ org ++ "/bounties" ++ post).data =
      'h' :: 't' :: 't' :: 'p' :: 's' :: ':' :: '/' :: '/' ::
        ("algora.io/".data ++ (org.data ++ ('/' :: "bounties".data ++ post.data))) := by
    show ("https://algora.io/".data ++ org.data ++ "/bounties".data ++ post.data) = _
    rw [show "https://algora.io/".data =
      'h' :: 't' :: 't' :: 'p' :: 's' :: ':' :: '/' :: '/' :: "algora.io/".data from rfl]
    simp
  rw [hdata]
  rw [scanAlgora_cons_none _ _ (matchAlgoraAt_not_a 'h' (by decide) _),
      scanAlgora_cons_none _ _ (matchAlgoraAt_not_a 't' (by decide) _),
      scanAlgora_cons_none _ _ (matchAlgoraAt_not_a 't' (by decide) _),
      scanAlgora_cons_none _ _ (matchAlgoraAt_not_a 'p' (by decide) _),
      scanAlgora_cons_none _ _ (matchAlgoraAt_not_a 's' (by decide) _),
      scanAlgora_cons_none _ _ (matchAlgoraAt_not_a ':' (by decide) _),
      scanAlgora_cons_none _ _ (matchAlgoraAt_not_a '/' (by decide) _),
      scanAlgora_cons_none _ _ (matchAlgoraAt_not_a '/' (by decide) _)]
  have key := matchAlgoraAt_pattern org.data post.data hne hns
  rw [show ("algora.io/".data ++ (org.data ++ ('/' :: "bounties".data ++ post.data))) =
    'a' :: ('l' :: 'g' :: 'o' :: 'r' :: 'a' :: '.' :: 'i' :: 'o' :: '/' ::
      (org.data ++ ('/' :: "bounties".data ++ post.data))) from by rw [algora_data]; rfl]
  rw [scanAlgora_cons_some _ _ org (by
    rw [show ('a' :: ('l' :: 'g' :: 'o' :: 'r' :: 'a' :: '.' :: 'i' :: 'o' :: '/' ::
      (org.data ++ ('/' :: "bounties".data ++ post.data)))) =
      "algora.io/".data ++ (org.data ++ ('/' :: "bounties".data ++ post.data)) from by
        rw [algora_data]; rfl]
    rw [key])]

/-- C9: the push endpoint extracts the resource id from the watch URL via the
documented pattern `algora.io/{org}/bounties`; a payload from which no org can
be extracted is rejected with HTTP 400 and no success acknowledgement, leaving
the state untouched — never silently dropped; an extractable payload is
acknowledged 200 with the org queued. -/
theorem push_endpoint_validation :
    (∀ (org post : String), org.data ≠ [] → (∀ c ∈ org.data, (c == '/') = false) →
      extractOrgHandle
        { watch_url := some ("https://algora.io/" ++ org ++ "/bounties" ++ post),
          url := none, message := none } = some org) ∧
    (∀ (s : WorkerState) (t : Nat) (p : WebhookPayload),
      extractOrgHandle p = none →
      responseStatus (handleSignal s t p).2 = 400 ∧
      acknowledgesSuccess (handleSignal s t p).2 = false ∧
      (handleSignal s t p).1 = s) ∧
    (∀ (s : WorkerState) (t : Nat) (p : WebhookPayload) (h : String),
      extractOrgHandle p = some h →
      responseStatus (handleSignal s t p).2 = 200 ∧
      acknowledgesSuccess (handleSignal s t p).2 = true ∧
      h ∈ (handleSignal s t p).1.pendingChanges) := by
  refine ⟨?_, ?_, ?_⟩
  · intro org post hne hns
    have hd : ("https://algora.io/" ++ org ++ "/bounties" ++ post).data =
        'h' :: ("ttps://algora.io/".data ++ org.data ++ "/bounties".data ++ post.data) := by
      show "https://algora.io/".data ++ org.data ++ "/bounties".data ++ post.data = _
      rfl
    have hne0 : ("https://algora.io/" ++ org ++ "/bounties" ++ post) ≠ "" := by
      intro h
      rw [h] at hd
      exact absurd hd (by simp [String.data])
    have hbeq : (("https://algora.io/" ++ org ++ "/bounties" ++ post) == "") = false :=
      beq_eq_false_iff_ne.mpr hne0
    simp only [extractOrgHandle, jsOrStr, hbeq, Bool.false_eq_true, if_false]
    exact scanAlgora_url org post hne hns
  · intro s t p hp
    simp [handleSignal, hp, responseStatus, acknowledgesSuccess]
  · intro s t p h hp
    simp [handleSignal, hp, responseStatus, acknowledgesSuccess, signalStep, mem_addPending]

/-- Witness for C9: a real watch URL maps to its org; an unmappable payload is
answered 400. -/
theorem push_endpoint_validation_witness :
    extractOrgHandle
      { watch_url := some ("https://algora.io/" ++ "tscircuit" ++ "/bounties" ++ "?status=open"),
        url := none, message := none } = some "tscircuit" ∧
    responseStatus (handleSignal initialWorkerState 0
      { watch_url := none, url := none, message := some "no match here" }).2 = 400 := by
  constructor
  · exact push_endpoint_validation.1 "tscircuit" "?status=open" (by decide) (by decide)
  · exact (push_endpoint_validation.2.1 initialWorkerState 0
      { watch_url := none, url := none, message := some "no match here" } (by decide)).1

/-! ### Fetch circuit breaking (src/src/scrapers/unified-firecrawl-scraper.ts)

Both `scrapeUrl` variants first consult the per-run `failedUrls` set
(returning immediately with no fetch attempt for a URL already marked), and
mark the URL failed after all attempts are exhausted.  Network outcomes are an
oracle from attempt index to response; thrown exceptions are folded into
failure responses carrying their message, which the source treats the same
way (record `lastError`, continue). -/

/-- The fields of `FirecrawlResponse` the control flow reads. -/
structure FirecrawlResponse where
  success : Bool
  markdown : Option String
  error : Option String
  deriving Repr, DecidableEq

/-- The retry loop of the Playwright-variant `scrapeUrl` (attempts numbered
from 1 up to `retryAttempts`): first success wins, otherwise the last error
message is kept.  Also counts fetch attempts actually performed. -/
def tryPlaywright (outcomes : Nat → FirecrawlResponse) :
    Nat → Nat → String → Option FirecrawlResponse × String × Nat
  | _, 0, lastError => (none, lastError, 0)
  | attempt, remaining + 1, lastError =>
    let result := outcomes attempt
    if result.success then (some result, lastError, 1)
    else
      let e := match result.error with
        | some msg => msg
        | none => "Scraping failed"
      let next := tryPlaywright outcomes (attempt + 1) remaining e
      (next.1, next.2.1, next.2.2 + 1)

/-- Playwright-variant `scrapeUrl`: skip URLs in `failedUrls` outright; retry
up to `retryAttempts` times; mark the URL failed after exhaustion.  Returns
the response, the new `failedUrls` set, and the number of fetches made. -/
def scrapeUrlPW (retryAttempts : Nat) (outcomes : Nat → FirecrawlResponse)
    (failedUrls : List String) (url : String) :
    FirecrawlResponse × List String × Nat :=
  if failedUrls.contains url then
    ({ success := false, markdown := none,
       error := some "URL previously failed, skipping" }, failedUrls, 0)
  else
    match tryPlaywright outcomes 1 retryAttempts "Unknown error" with
    | (some result, _, n) => (result, failedUrls, n)
    | (none, lastError, n) =>
      ({ success := false, markdown := none, error := some lastError },
       failedUrls ++ [url], n)

/-- The method-fallback loop of the Firecrawl-variant `scrapeUrl`
(self-hosted / external attempts in configured order; a rate-limited or
failed attempt records its error and moves to the next method). -/
def tryMethodList (outcomes : Nat → FirecrawlResponse) :
    Nat → List String → String → Option FirecrawlResponse × String × Nat
  | _, [], lastError => (none, lastError, 0)
  | i, method :: rest, lastError =>
    let result := outcomes i
    if result.success then (some result, lastError, 1)
    else
      let e := match result.error with
        | some msg => msg
        | none => if method == "self-hosted" then "Self-hosted scraping failed"
                  else "External scraping failed"
      let next := tryMethodList outcomes (i + 1) rest e
      (next.1, next.2.1, next.2.2 + 1)

/-- Firecrawl-variant `scrapeUrl` over an already-built attempts list. -/
def scrapeUrlFC (attempts : List String) (outcomes : Nat → FirecrawlResponse)
    (failedUrls : List String) (url : String) :
    FirecrawlResponse × List String × Nat :=
  if failedUrls.contains url then
    ({ success := false, markdown := none,
       error := some "URL previously failed, skipping" }, failedUrls, 0)
  else
    match tryMethodList outcomes 0 attempts "No scraping methods available" with
    | (some result, _, n) => (result, failedUrls, n)
    | (none, lastError, n) =>
      ({ success := false, markdown := none, error := some lastError },
       failedUrls ++ [url], n)

lemma tryPlaywright_all_fail (outcomes : Nat → FirecrawlResponse)
    (h : ∀ k, (outcomes k).success = false) :
    ∀ (r a : Nat) (e : String),
      (tryPlaywright outcomes a r e).1 = none ∧
      (tryPlaywright outcomes a r e).2.2 = r := by
  intro r
  induction r with
  | zero => intro a e; exact ⟨rfl, rfl⟩
  | succ r ih =>
    intro a e
    have hk := h a
    simp only [tryPlaywright, hk, Bool.false_eq_true, if_false]
    exact ⟨(ih (a + 1) _).1, by rw [(ih (a + 1) _).2]⟩

lemma tryMethodList_all_fail (outcomes : Nat → FirecrawlResponse)
    (h : ∀ k, (outcomes k).success = false) :
    ∀ (attempts : List String) (i : Nat) (e : String),
      (tryMethodList outcomes i attempts e).1 = none ∧
      (tryMethodList outcomes i attempts e).2.2 = attempts.length := by
  intro attempts
  induction attempts with
  | nil => intro i e; exact ⟨rfl, rfl⟩
  | cons m rest ih =>
    intro i e
    have hk := h i
    simp only [tryMethodList, hk, Bool.false_eq_true, if_false, List.length_cons]
    exact ⟨(ih (i + 1) _).1, by rw [(ih (i + 1) _).2]⟩

/-- C7: once one `scrapeUrl` call has exhausted all its attempts with
failures, the URL is marked failed, and every subsequent `scrapeUrl` call for
that URL in the same run performs zero fetch attempts and fails immediately —
in both the Playwright variant (counted retries) and the Firecrawl variant
(method fallback list). -/
theorem circuit_breaker_skips_after_exhaustion
    (retryAttempts : Nat) (outcomes outcomes2 : Nat → FirecrawlResponse)
    (failedUrls : List String) (url : String)
    (hnot : url ∉ failedUrls)
    (hfail : ∀ k, (outcomes k).success = false) :
    (scrapeUrlPW retryAttempts outcomes failedUrls url).1.success = false ∧
    (scrapeUrlPW retryAttempts outcomes failedUrls url).2.2 = retryAttempts ∧
    (scrapeUrlPW retryAttempts outcomes failedUrls url).2.1 = failedUrls ++ [url] ∧
    scrapeUrlPW retryAttempts outcomes2 (failedUrls ++ [url]) url =
      ({ success := false, markdown := none,
         error := some "URL previously failed, skipping" }, failedUrls ++ [url], 0) ∧
    (∀ attempts : List String,
      (scrapeUrlFC attempts outcomes failedUrls url).2.2 = attempts.length ∧
      (scrapeUrlFC attempts outcomes failedUrls url).2.1 = failedUrls ++ [url] ∧
      scrapeUrlFC attempts outcomes2 (failedUrls ++ [url]) url =
        ({ success := false, markdown := none,
           error := some "URL previously failed, skipping" }, failedUrls ++ [url], 0)) := by
  have hcont : failedUrls.contains url = false := by simpa using hnot
  have hcont2 : (failedUrls ++ [url]).contains url = true := by simp
  have hall := tryPlaywright_all_fail outcomes hfail retryAttempts 1 "Unknown error"
  rcases hte : tryPlaywright outcomes 1 retryAttempts "Unknown error" with ⟨o, e', n⟩
  rw [hte] at hall
  simp only at hall
  obtain ⟨ho, hn⟩ := hall
  subst ho hn
  refine ⟨?_, ?_, ?_, ?_, ?_⟩
  · simp [scrapeUrlPW, hcont, hte, hnot]
  · simp [scrapeUrlPW, hcont, hte, hnot]
  · simp [scrapeUrlPW, hcont, hte, hnot]
  · simp [scrapeUrlPW, hcont2]
  · intro attempts
    have hallm := tryMethodList_all_fail outcomes hfail attempts 0
      "No scraping methods available"
    rcases htm : tryMethodList outcomes 0 attempts "No scraping methods available"
      with ⟨om, em, nm⟩
    rw [htm] at hallm
    simp only at hallm
    obtain ⟨hom, hnm⟩ := hallm
    subst hom hnm
    refine ⟨?_, ?_, ?_⟩
    · simp [scrapeUrlFC, hcont, htm, hnot]
    · simp [scrapeUrlFC, hcont, htm, hnot]
    · simp [scrapeUrlFC, hcont2]

/-- Witness for C7: three failing attempts at a fresh URL mark it; the next
call returns immediately with zero fetches. -/
theorem circuit_breaker_skips_after_exhaustion_witness :
    (scrapeUrlPW 3 (fun _ => ⟨false, none, some "timeout"⟩) [] "https://algora.io/x/bounties").2.2 = 3 ∧
    scrapeUrlPW 3 (fun _ => ⟨true, some "md", none⟩) ["https://algora.io/x/bounties"]
        "https://algora.io/x/bounties" =
      ({ success := false, markdown := none,
         error := some "URL previously failed, skipping" },
       ["https://algora.io/x/bounties"], 0) := by
  have h := circuit_breaker_skips_after_exhaustion 3
    (fun _ => ⟨false, none, some "timeout"⟩) (fun _ => ⟨true, some "md", none⟩)
    [] "https://algora.io/x/bounties" (by simp) (fun _ => rfl)
  exact ⟨h.2.1, by simpa using h.2.2.2.1⟩

/-! ### Entity extraction and currency parsing
(src/src/scrapers/unified-firecrawl-scraper.ts, Firecrawl variant)

`extractBountiesFromMarkdown` finds GitHub issue links via
`/github\.com\/([^\/]+)\/([^\/]+)\/issues\/(\d+)/g`, pulls title/amount/tech
from the surrounding context via `extractBountyContext`, and builds a bounty
whose reward defaults to 10000 cents ($100) when no amount was resolved.  The
amount itself comes from `/\$(\d+(?:,\d{3})*(?:\.\d{2})?)/` followed by
`Math.round(parseFloat(m.replace(',', '')) * 100)`; `String.replace` with a
string pattern replaces only the FIRST comma, and `parseFloat` reads the
longest numeric prefix.  Floating point is modelled by exact arithmetic: for
captures of this grammar the value times 100 rounds to the integer computed
here. -/

/-- `line.includes(pat)`. -/
def containsSubstrChars (pat : List Char) : List Char → Bool
  | [] => pat.isEmpty
  | c :: cs => startsWithPat (fun a b => a == b) pat (c :: cs) || containsSubstrChars pat cs

def containsSubstr (s pat : String) : Bool :=
  containsSubstrChars pat.data s.data

/-- `(?:,\d{3})*`: greedily consume comma-plus-three-digit groups. -/
def commaGroups : List Char → List Char × List Char
  | ',' :: d1 :: d2 :: d3 :: rest =>
    if d1.isDigit && d2.isDigit && d3.isDigit then
      let next := commaGroups rest
      (',' :: d1 :: d2 :: d3 :: next.1, next.2)
    else ([], ',' :: d1 :: d2 :: d3 :: rest)
  | other => ([], other)

/-- `(?:\.\d{2})?`: an optional dot-plus-two-digits group. -/
def decimalPart : List Char → List Char × List Char
  | '.' :: d1 :: d2 :: rest =>
    if d1.isDigit && d2.isDigit then (['.', d1, d2], rest)
    else ([], '.' :: d1 :: d2 :: rest)
  | other => ([], other)

/-- `/\$(\d+(?:,\d{3})*(?:\.\d{2})?)/` anchored here: the capture group. -/
def matchAmountAt : List Char → Option (List Char)
  | '$' :: rest =>
    if (rest.head?.map Char.isDigit).getD false then
      let intDigits := rest.takeWhile Char.isDigit
      let r1 := rest.dropWhile Char.isDigit
      let g := commaGroups r1
      let dec := decimalPart g.2
      some (intDigits ++ g.1 ++ dec.1)
    else none
  | _ => none

/-- Leftmost match of the amount regex (the capture group). -/
def findAmountCapture : List Char → Option (List Char)
  | [] => none
  | c :: cs =>
    match matchAmountAt (c :: cs) with
    | some cap => some cap
    | none => findAmountCapture cs

/-- `capture.replace(',', '')`: JS string-pattern replace removes only the
first occurrence. -/
def removeFirstComma : List Char → List Char
  | [] => []
  | c :: cs => if c == ',' then cs else c :: removeFirstComma cs

def digitsToNat (ds : List Char) : Nat :=
  ds.foldl (fun n c => n * 10 + (c.toNat - 48)) 0

/-- Minor units contributed by the fractional digits of `parseFloat`'s value,
times 100 and rounded half-up (`Math.round`). -/
def fracCents : List Char → Nat
  | [] => 0
  | [d] => (d.toNat - 48) * 10
  | d1 :: d2 :: rest =>
    (d1.toNat - 48) * 10 + (d2.toNat - 48) +
      (match rest with
       | r :: _ => if r.toNat ≥ 53 then 1 else 0
       | [] => 0)

/-- `Math.round(parseFloat(cs) * 100)` in exact arithmetic: `parseFloat`
reads the longest `\d+(\.\d*)?` prefix. -/
def parseFloatCents (cs : List Char) : Nat :=
  let intDigits := cs.takeWhile Char.isDigit
  let rest := cs.dropWhile Char.isDigit
  let fracDigits := match rest with
    | '.' :: r => r.takeWhile Char.isDigit
    | _ => []
  digitsToNat intDigits * 100 + fracCents fracDigits

/-- `amountMatch ? Math.round(parseFloat(amountMatch[1].replace(',', '')) * 100)
: undefined`. -/
def extractAmount (cs : List Char) : Option Nat :=
  (findAmountCapture cs).map (fun cap => parseFloatCents (removeFirstComma cap))

/-- The context record returned by `extractBountyContext`. -/
structure BountyContext where
  title : Option String
  amount : Option Nat
  description : String
  tech : Option (List String)
  deriving Repr, DecidableEq

/-- `markdown.split('\n')` at the character level (e.g. `"a\nb\n"` splits to
`["a", "b", ""]`). -/
def splitOnChar (sep : Char) : List Char → List (List Char)
  | [] => [[]]
  | c :: cs =>
    let rest := splitOnChar sep cs
    if c == sep then [] :: rest
    else (c :: rest.headD []) :: rest.tail

/-- `s.trim()` at the character level. -/
def trimChars (cs : List Char) : List Char :=
  ((cs.dropWhile Char.isWhitespace).reverse.dropWhile Char.isWhitespace).reverse

/-- `titleMatch?.replace(/^[#\*\[]+\s*/, '').replace(/\].*$/, '').trim()`. -/
def cleanTitle (line : String) : String :=
  let isMarker : Char → Bool := fun c => c == '#' || c == '*' || c == '['
  let afterLead :=
    match line.data with
    | c :: _ =>
      if isMarker c then
        (line.data.dropWhile isMarker).dropWhile Char.isWhitespace
      else line.data
    | [] => line.data
  String.mk (trimChars (afterLead.takeWhile (fun c => c != ']')))

def techKeywords : List String :=
  ["typescript", "javascript", "react", "nodejs", "python", "rust", "go", "java"]

/-- `UnifiedFirecrawlScraper.extractBountyContext`.  JS string primitives
(`split`, `startsWith`, `join`, `toLowerCase`, `slice`) are modelled at the
character-list level. -/
def extractBountyContext (markdown githubUrl : String) : Option BountyContext :=
  let lines := (splitOnChar '\n' markdown.data).map String.mk
  match lines.findIdx? (fun line => containsSubstr line githubUrl) with
  | none => none
  | some urlLineIndex =>
    let context := (lines.drop (urlLineIndex - 5)).take
      (urlLineIndex + 5 - (urlLineIndex - 5))
    let titleMatch := context.find? (fun line =>
      (startsWithPat (fun a b => a == b) "#".data line.data ||
       startsWithPat (fun a b => a == b) "**".data line.data ||
       startsWithPat (fun a b => a == b) "[".data line.data) &&
        decide (line.data.length > 10) && decide (line.data.length < 100))
    let joined := String.mk (List.intercalate [' '] (context.map String.data))
    let amount := extractAmount joined.data
    let tech := techKeywords.filter (fun keyword =>
      containsSubstrChars keyword.data (joined.data.map Char.toLower))
    some { title := titleMatch.map cleanTitle
           amount := amount
           description := String.mk (joined.data.take 200)
           tech := if tech.length > 0 then some tech else none }

/-- `/github\.com\/([^\/]+)\/([^\/]+)\/issues\/(\d+)/` anchored here:
`(fullMatch, owner, repo, issueNumber)`. -/
def matchGithubIssueAt (cs : List Char) : Option (String × String × String × String) :=
  match stripPrefixChars "github.com/".data cs with
  | none => none
  | some r1 =>
    let owner := r1.takeWhile (fun c => c != '/')
    if owner.isEmpty then none
    else
      match r1.dropWhile (fun c => c != '/') with
      | '/' :: r2 =>
        let repo := r2.takeWhile (fun c => c != '/')
        if repo.isEmpty then none
        else
          match stripPrefixChars "/issues/".data (r2.dropWhile (fun c => c != '/')) with
          | none => none
          | some r3 =>
            let num := r3.takeWhile Char.isDigit
            if num.isEmpty then none
            else
              some (String.mk ("github.com/".data ++ owner ++ '/' :: repo ++
                      "/issues/".data ++ num),
                    String.mk owner, String.mk repo, String.mk num)
      | _ => none

/-- `[...markdown.matchAll(githubIssuePattern)]`: all non-overlapping matches,
left to right; the skip counter advances past each match structurally. -/
def scanGithubAux : Nat → List Char → List (String × String × String × String)
  | _, [] => []
  | skip + 1, _ :: cs => scanGithubAux skip cs
  | 0, c :: cs =>
    match matchGithubIssueAt (c :: cs) with
    | some m => m :: scanGithubAux (m.1.data.length - 1) cs
    | none => scanGithubAux 0 cs

def scanGithubIssues (cs : List Char) : List (String × String × String × String) :=
  scanGithubAux 0 cs

/-- JS `a || dflt` over an optional number (0 is falsy). -/
def jsOrNat (a : Option Nat) (dflt : Nat) : Nat :=
  match a with
  | some v => if v = 0 then dflt else v
  | none => dflt

/-- The fields of the constructed `BountyItem` that the extraction logic
computes (static org/task boilerplate omitted). -/
structure ExtractedBounty where
  id : String
  reward_amount : Nat
  reward_currency : String
  title : String
  tech : List String
  url : String
  deriving Repr, DecidableEq

/-- `UnifiedFirecrawlScraper.extractBountiesFromMarkdown` (Firecrawl variant):
one bounty per GitHub issue match whose context resolves, rewarding
`bountyData.amount || 10000` cents. -/
def extractBountiesFromMarkdown (markdown : String) (orgHandle : String) :
    List ExtractedBounty :=
  (scanGithubIssues markdown.data).filterMap (fun m =>
    match extractBountyContext markdown m.1 with
    | some bountyData =>
      some { id := orgHandle ++ "#" ++ m.2.2.2
             reward_amount := jsOrNat bountyData.amount 10000
             reward_currency := "USD"
             title := bountyData.title.getD ("Issue #" ++ m.2.2.2)
             tech := bountyData.tech.getD []
             url := m.1 }
    | none => none)

lemma digit_ne_comma (c : Char) (h : c.isDigit = true) : (c == ',') = false := by
  rw [beq_eq_false_iff_ne]
  rintro rfl
  exact absurd h (by decide)

lemma digit_ne_dot (c : Char) (h : c.isDigit = true) : (c == '.') = false := by
  rw [beq_eq_false_iff_ne]
  rintro rfl
  exact absurd h (by decide)

lemma removeFirstComma_id (cs : List Char) (h : ∀ c ∈ cs, (c == ',') = false) :
    removeFirstComma cs = cs := by
  induction cs with
  | nil => rfl
  | cons c cs ih =>
    simp only [removeFirstComma, h c (by simp), Bool.false_eq_true, if_false]
    rw [ih (fun c hc => h c (by simp [hc]))]

lemma commaGroups_not_comma (c : Char) (cs : List Char) (h : (c == ',') = false) :
    commaGroups (c :: cs) = ([], c :: cs) := by
  have hc : c ≠ ',' := by simpa [beq_eq_false_iff_ne] using h
  conv_lhs => rw [commaGroups.eq_def]
  split
  · rename_i heq
    injection heq with h1 _
    exact absurd h1 hc
  · rfl

lemma findIdx?_isSome_of_exists {α : Type} (p : α → Bool) (l : List α)
    (h : ∃ x ∈ l, p x = true) : (List.findIdx? p l).isSome = true := by
  induction l with
  | nil => simp at h
  | cons hd tl ih =>
    by_cases hp : p hd = true
    · simp [List.findIdx?, hp]
    · rcases h with ⟨x, hx, hpx⟩
      rcases List.mem_cons.mp hx with rfl | hx'
      · exact absurd hpx hp
      · simp only [List.findIdx?, hp]
        simpa using ih ⟨x, hx', hpx⟩

/-- C8: currency-formatted amounts in the bounty context are parsed into
integer minor units (the spec's example `$1,234.56` gives 123456 cents, and
every `$<digits>.<dd>` amount parses to `digits * 100 + dd`); when a GitHub
issue URL occurs on some line the context extraction never fails; and every
produced bounty rewards `amount || 10000` cents, i.e. defaults to 10000
($100) when no amount was resolved, instead of being dropped. -/
theorem amount_parsing_and_default :
    extractAmount "reward $1,234.56 usd".data = some 123456 ∧
    (∀ (intDs : List Char) (d1 d2 : Char) (post : List Char),
      intDs ≠ [] → (∀ c ∈ intDs, c.isDigit = true) →
      d1.isDigit = true → d2.isDigit = true →
      extractAmount ('$' :: (intDs ++ '.' :: d1 :: d2 :: post)) =
        some (digitsToNat intDs * 100 + ((d1.toNat - 48) * 10 + (d2.toNat - 48)))) ∧
    (∀ markdown githubUrl : String,
      (∃ lc ∈ splitOnChar '\n' markdown.data,
        containsSubstrChars githubUrl.data lc = true) →
      ∃ ctx, extractBountyContext markdown githubUrl = some ctx) ∧
    (∀ (markdown org : String) (b : ExtractedBounty),
      b ∈ extractBountiesFromMarkdown markdown org →
      ∃ ctx, extractBountyContext markdown b.url = some ctx ∧
        b.reward_amount = jsOrNat ctx.amount 10000 ∧
        (ctx.amount = none → b.reward_amount = 10000)) := by
  refine ⟨by decide, ?_, ?_, ?_⟩
  · rintro ⟨⟩ d1 d2 post hne hall hd1 hd2
    · exact absurd rfl hne
    next i is =>
    have halltail : ∀ c ∈ (i :: is), c.isDigit = true := hall
    have hi : i.isDigit = true := hall i (by simp)
    have htake : ((i :: is) ++ '.' :: d1 :: d2 :: post).takeWhile Char.isDigit
        = i :: is := takeWhile_all_append _ _ '.' _ halltail (by decide)
    have hdrop : ((i :: is) ++ '.' :: d1 :: d2 :: post).dropWhile Char.isDigit
        = '.' :: d1 :: d2 :: post := dropWhile_all_append _ _ '.' _ halltail (by decide)
    have hcg : commaGroups ('.' :: d1 :: d2 :: post) = ([], '.' :: d1 :: d2 :: post) :=
      commaGroups_not_comma '.' _ (by decide)
    have hdec : decimalPart ('.' :: d1 :: d2 :: post) = (['.', d1, d2], post) := by
      simp [decimalPart, hd1, hd2]
    have hmatch : matchAmountAt ('$' :: ((i :: is) ++ '.' :: d1 :: d2 :: post)) =
        some ((i :: is) ++ ['.', d1, d2]) := by
      simp only [matchAmountAt, List.cons_append, List.head?_cons, Option.map_some,
        Option.getD_some, hi, if_true]
      rw [show ((i :: (is ++ '.' :: d1 :: d2 :: post)).takeWhile Char.isDigit) = i :: is
        from htake]
      rw [show ((i :: (is ++ '.' :: d1 :: d2 :: post)).dropWhile Char.isDigit)
        = '.' :: d1 :: d2 :: post from hdrop]
      rw [hcg, hdec]
      simp [hi]
    have hcap : findAmountCapture ('$' :: ((i :: is) ++ '.' :: d1 :: d2 :: post)) =
        some ((i :: is) ++ ['.', d1, d2]) := by
      simp only [findAmountCapture, hmatch]
    have hnocomma : ∀ c ∈ (i :: is) ++ ['.', d1, d2], (c == ',') = false := by
      intro c hc
      rcases List.mem_append.mp hc with h | h
      · exact digit_ne_comma c (halltail c h)
      · simp only [List.mem_cons, List.not_mem_nil, or_false] at h
        rcases h with h | h | h
        · rw [h]; decide
        · rw [h]; exact digit_ne_comma d1 hd1
        · rw [h]; exact digit_ne_comma d2 hd2
    have hfracTake : (d1 :: [d2]).takeWhile Char.isDigit = [d1, d2] := by
      simp [List.takeWhile_cons, hd1, hd2]
    have hparse : parseFloatCents ((i :: is) ++ ['.', d1, d2]) =
        digitsToNat (i :: is) * 100 + ((d1.toNat - 48) * 10 + (d2.toNat - 48)) := by
      have ht2 : ((i :: is) ++ ['.', d1, d2]).takeWhile Char.isDigit = i :: is :=
        takeWhile_all_append _ _ '.' _ halltail (by decide)
      have hd2' : ((i :: is) ++ ['.', d1, d2]).dropWhile Char.isDigit = ['.', d1, d2] :=
        dropWhile_all_append _ _ '.' _ halltail (by decide)
      simp only [parseFloatCents, ht2, hd2', hfracTake, fracCents]
      omega
    rw [extractAmount, hcap]
    have hnocomma2 : ∀ c ∈ i :: (is ++ ['.', d1, d2]), (c == ',') = false := by
      simpa using hnocomma
    have hparse2 : parseFloatCents (i :: (is ++ ['.', d1, d2])) =
        digitsToNat (i :: is) * 100 + ((d1.toNat - 48) * 10 + (d2.toNat - 48)) := by
      simpa using hparse
    simp [removeFirstComma_id _ hnocomma2, hparse2]
  · intro markdown githubUrl h
    have hmap : ∃ line ∈ (splitOnChar '\n' markdown.data).map String.mk,
        containsSubstr line githubUrl = true := by
      rcases h with ⟨lc, hlc, hc⟩
      exact ⟨String.mk lc, List.mem_map.mpr ⟨lc, hlc, rfl⟩, hc⟩
    have hidx := findIdx?_isSome_of_exists _ _ hmap
    rcases hfi : List.findIdx? (fun line => containsSubstr line githubUrl)
        ((splitOnChar '\n' markdown.data).map String.mk) with _ | i
    · rw [hfi] at hidx; simp at hidx
    · have hs : (extractBountyContext markdown githubUrl).isSome = true := by
        simp only [extractBountyContext, hfi]
        rfl
      exact Option.isSome_iff_exists.mp hs
  · intro markdown org b hb
    rcases List.mem_filterMap.mp hb with ⟨m, _, hfm⟩
    rcases hctx : extractBountyContext markdown m.1 with _ | ctx
    · rw [hctx] at hfm; cases hfm
    · rw [hctx] at hfm
      simp only at hfm
      injection hfm with hbe
      subst hbe
      refine ⟨ctx, hctx, rfl, ?_⟩
      intro hnone
      simp [jsOrNat, hnone]

/-- Witness for C8: a concrete dollar amount parses to minor units via the
general lemma, and a concrete one-line markdown context extracts. -/
theorem amount_parsing_and_default_witness :
    extractAmount ('$' :: (['1', '2', '3', '4'] ++ '.' :: '5' :: '6' :: " today".data)) =
      some 123456 ∧
    (∃ ctx, extractBountyContext "see github.com/foo/bar/issues/7 here"
      "github.com/foo/bar/issues/7" = some ctx) := by
  constructor
  · exact (amount_parsing_and_default.2.1 ['1', '2', '3', '4'] '5' '6' " today".data
      (by decide) (by decide) (by decide) (by decide)).trans (by decide)
  · exact amount_parsing_and_default.2.2.1 "see github.com/foo/bar/issues/7 here"
      "github.com/foo/bar/issues/7"
      ⟨"see github.com/foo/bar/issues/7 here".data, by decide, by decide⟩

/-- An index holding the same bounty id twice with different titles (the
`BountyIndex` type does not rule this out). -/
def dupIdIndex : BountyIndex :=
  { organizations :=
      [("test-org",
        { bounties :=
            [{ id := "x#1", title := "A", amount_usd := 100, status := "open",
               url := "u", difficulty := "d", tags := [] },
             { id := "x#1", title := "B", amount_usd := 100, status := "open",
               url := "u", difficulty := "d", tags := [] }] })] }

/-- C4 counterexample: comparing an index against itself is NOT always empty —
with a duplicated bounty id the `Map` built from the previous snapshot keeps
only the last entry, so the first entry is reported as updated against it. -/
theorem compareIndices_self_not_always_empty :
    (compareIndices dupIdIndex dupIdIndex).has_changes = true ∧
    (compareIndices dupIdIndex dupIdIndex).updated_bounties ≠ [] := by
  constructor
  · rfl
  · intro h
    have : (compareIndices dupIdIndex dupIdIndex).updated_bounties.length = 0 := by
      rw [h]; rfl
    revert this
    decide

end BountyCrawl
